import Mathlib

/-!
Verification of the circuit-cutting pipeline (`pennylane/qcut.py`).

The development shallowly embeds the data model and the pipeline functions of
the source file: tapes, the circuit multigraph, wire-cut removal,
fragmentation, graph-to-tape lowering, configuration expansion, tensor
assembly and contraction.  Scalar results of configuration tapes are computed
by an exact state-vector simulator over the ring `ℚ(√2, i)`, so that the
end-to-end expectation-value claims can be settled exactly.

Python object identity is modelled by a numeric `id` field on nodes; fresh
object allocation is modelled by threading an explicit counter.  Dictionary
iteration order and `networkx` insertion order are modelled by lists kept in
insertion order.
-/

/-- Single-qubit gate kinds appearing in the source: `Identity`, `PauliX`,
`PauliY`, `PauliZ`, `Hadamard`, `S`. -/
inductive SQGate
| gI | gX | gY | gZ | gH | gS
deriving DecidableEq

/-- Observable factors: the four Paulis plus a marker for any non-Pauli
observable class (used to model the `isinstance` checks). -/
inductive PFactor
| fI | fX | fY | fZ | fOther
deriving DecidableEq

/-- A measurement observable: a single operator or a `Tensor` of factors,
each factor recorded with the wire it reads. -/
inductive Obs
| single (p : PFactor) (w : ℕ)
| tensor (fs : List (PFactor × ℕ))
deriving DecidableEq

/-- Measurement return types; the source supports only `Expectation`. -/
inductive RetType
| expectation | sample
deriving DecidableEq

/-- Node kinds: plain gates, `WireCut`, the synthetic `MeasureNode` /
`PrepareNode` (each carrying its list of terms, as in `PlaceholderNode`), and
terminal `MeasurementProcess` nodes. -/
inductive NodeKind
| gate1 (g : SQGate)
| cnot
| wireCut
| measureNode (terms : List PFactor)
| prepareNode (terms : List (List SQGate))
| measProc (r : RetType) (o : Obs)
deriving DecidableEq

/-- An operator object.  `id` models Python object identity, `wires` the
(mutable) `_wires` attribute. -/
structure Node where
  id : ℕ
  kind : NodeKind
  wires : List ℕ
deriving DecidableEq

/-- A quantum tape: an ordered list of operations followed by terminal
measurements (nodes of kind `measProc`). -/
structure Tape where
  ops : List Node
  meas : List Node
deriving DecidableEq

def NodeKind.isWireCut : NodeKind → Bool
| NodeKind.wireCut => true
| _ => false

def NodeKind.isMeasureNode : NodeKind → Bool
| NodeKind.measureNode _ => true
| _ => false

def NodeKind.isPrepareNode : NodeKind → Bool
| NodeKind.prepareNode _ => true
| _ => false

def NodeKind.isMeasProc : NodeKind → Bool
| NodeKind.measProc _ _ => true
| _ => false

/-- A node that is a plain circuit gate (no cut marker, no synthetic node,
no measurement). -/
def NodeKind.isPlainGate : NodeKind → Bool
| NodeKind.gate1 _ => true
| NodeKind.cnot => true
| _ => false

/-- First-occurrence deduplication, as `Wires.all_wires` does. -/
def dedupFirst : List ℕ → List ℕ
| [] => []
| w :: ws => w :: (dedupFirst ws).filter (fun v => v ≠ w)

/-- The wire set of a tape, in order of first appearance. -/
def Tape.wiresList (t : Tape) : List ℕ :=
  dedupFirst (((t.ops ++ t.meas).map Node.wires).flatten)

/-- The factors of an observable, with their wires. -/
def Obs.factors : Obs → List (PFactor × ℕ)
| Obs.single p w => [(p, w)]
| Obs.tensor fs => fs

/-- `itertools.product` over a list of lists: leftmost factor varies slowest. -/
def listProd {α : Type} : List (List α) → List (List α)
| [] => [[]]
| l :: ls => l.flatMap (fun x => (listProd ls).map (fun xs => x :: xs))

/-- Effectful map over a list in the `Except` monad, collecting results in
order and aborting on the first error (a Python `for` loop that appends). -/
def exceptMapM {ε α β : Type} (f : α → Except ε β) : List α → Except ε (List β)
| [] => Except.ok []
| a :: l => do
  let b ← f a
  let r ← exceptMapM f l
  Except.ok (b :: r)

/-- Lookup in an association list with an explicit default. -/
def alistGetD {α : Type} : List (ℕ × α) → ℕ → α → α
| [], _, d => d
| (k, v) :: l, x, d => if k = x then v else alistGetD l x d

/-- Overwriting insertion into an association list (Python dict update). -/
def alistSet {α : Type} : List (ℕ × α) → ℕ → α → List (ℕ × α)
| [], k, v => [(k, v)]
| (k', v') :: l, k, v => if k' = k then (k, v) :: l else (k', v') :: alistSet l k v

/-- Index of a wire in a wire list (used to map wire labels to qubit
positions in the simulator). -/
def idxOf : List ℕ → ℕ → ℕ
| [], _ => 0
| w :: ws, x => if w = x then 0 else idxOf ws x + 1

/-- A dyadic rational `num / 2^exp`, kept in normal form (odd numerator or
zero exponent).  Every number arising in the pipeline — amplitudes built from
`H`, `S` and Paulis, the `2^(-k/2)` rescaling, the change-of-basis entries,
and the fractional node orders `k + 1/2` — is dyadic, so this represents the
arithmetic exactly while staying evaluable by kernel reduction. -/
structure Dy where
  num : ℤ
  exp : ℕ
deriving DecidableEq

/-- Cancel factors of 2 until the numerator is odd or the exponent is 0. -/
def Dy.normGo : ℤ → ℕ → Dy
| n, 0 => ⟨n, 0⟩
| n, e + 1 => if n % 2 = 0 then Dy.normGo (n / 2) e else ⟨n, e + 1⟩

def Dy.norm (d : Dy) : Dy := Dy.normGo d.num d.exp

def Dy.ofInt (n : ℤ) : Dy := ⟨n, 0⟩

def Dy.half : Dy := ⟨1, 1⟩

def Dy.add (x y : Dy) : Dy := Dy.norm ⟨x.num * 2 ^ y.exp + y.num * 2 ^ x.exp, x.exp + y.exp⟩

def Dy.mul (x y : Dy) : Dy := Dy.norm ⟨x.num * y.num, x.exp + y.exp⟩

def Dy.neg (x : Dy) : Dy := ⟨-x.num, x.exp⟩

def Dy.sub (x y : Dy) : Dy := Dy.add x (Dy.neg y)

/-- `x ≤ y` on dyadic rationals, by cross-multiplication. -/
def Dy.Le (x y : Dy) : Prop := x.num * 2 ^ y.exp ≤ y.num * 2 ^ x.exp

instance : DecidableRel Dy.Le := fun _ _ => Int.decLe _ _

instance : Zero Dy := ⟨⟨0, 0⟩⟩
instance : One Dy := ⟨⟨1, 0⟩⟩

/-- In normal form: numerator odd, or exponent zero. -/
def Dy.Normalized (d : Dy) : Prop := d.exp = 0 ∨ d.num % 2 ≠ 0

/-- The exact scalar ring `ℚ(√2, i)` over dyadics:
`re1 + re2·√2 + (im1 + im2·√2)·i`.  Closed under the gates `H` and `S` and
under the `2^(-k/2)` rescaling of the tensor assembler. -/
structure K where
  re1 : Dy
  re2 : Dy
  im1 : Dy
  im2 : Dy
deriving DecidableEq

def K.add (x y : K) : K :=
  ⟨Dy.add x.re1 y.re1, Dy.add x.re2 y.re2, Dy.add x.im1 y.im1, Dy.add x.im2 y.im2⟩

def K.neg (x : K) : K := ⟨Dy.neg x.re1, Dy.neg x.re2, Dy.neg x.im1, Dy.neg x.im2⟩

/-- Multiplication of `a + b√2` pairs. -/
def K.mulR (a b c d : Dy) : Dy × Dy :=
  (Dy.add (Dy.mul a c) (Dy.mul (Dy.ofInt 2) (Dy.mul b d)), Dy.add (Dy.mul a d) (Dy.mul b c))

def K.mul (x y : K) : K :=
  let rr := K.mulR x.re1 x.re2 y.re1 y.re2
  let ii := K.mulR x.im1 x.im2 y.im1 y.im2
  let ri := K.mulR x.re1 x.re2 y.im1 y.im2
  let ir := K.mulR x.im1 x.im2 y.re1 y.re2
  ⟨Dy.sub rr.1 ii.1, Dy.sub rr.2 ii.2, Dy.add ri.1 ir.1, Dy.add ri.2 ir.2⟩

def K.conj (x : K) : K := ⟨x.re1, x.re2, Dy.neg x.im1, Dy.neg x.im2⟩

def K.ofInt (n : ℤ) : K := ⟨Dy.ofInt n, 0, 0, 0⟩

instance : Zero K := ⟨⟨0, 0, 0, 0⟩⟩
instance : One K := ⟨⟨1, 0, 0, 0⟩⟩
instance : Add K := ⟨K.add⟩
instance : Neg K := ⟨K.neg⟩
instance : Mul K := ⟨K.mul⟩

/-- The imaginary unit. -/
def K.imag : K := ⟨0, 0, 1, 0⟩

/-- `1/√2 = √2/2`. -/
def K.invSqrt2 : K := ⟨0, Dy.half, 0, 0⟩

def K.pow (x : K) : ℕ → K
| 0 => 1
| n + 1 => K.mul x (K.pow x n)

def K.sum : List K → K
| [] => 0
| x :: l => x + K.sum l

/-- All four components in dyadic normal form (every value produced by the
ring operations is). -/
def K.Normalized (x : K) : Prop :=
  x.re1.Normalized ∧ x.re2.Normalized ∧ x.im1.Normalized ∧ x.im2.Normalized

instance {ε α : Type} [DecidableEq ε] [DecidableEq α] : DecidableEq (Except ε α)
| Except.ok a, Except.ok b =>
  if h : a = b then Decidable.isTrue (by rw [h])
  else Decidable.isFalse (fun hh => h (Except.ok.inj hh))
| Except.error a, Except.error b =>
  if h : a = b then Decidable.isTrue (by rw [h])
  else Decidable.isFalse (fun hh => h (Except.error.inj hh))
| Except.ok _, Except.error _ => Decidable.isFalse (fun hh => Except.noConfusion hh)
| Except.error _, Except.ok _ => Decidable.isFalse (fun hh => Except.noConfusion hh)

/-- A directed multigraph edge: source node, destination node, `wire` label.
Edges are kept in insertion order, as `networkx` does. -/
structure GEdge where
  src : Node
  dst : Node
  wire : ℕ
deriving DecidableEq

/-- The circuit multigraph: nodes (with their `order` attribute, rational to
accommodate the `order + 0.5` convention of cut expansion) and edges, both in
insertion order. -/
structure Graph where
  nodes : List (Node × Dy)
  edges : List GEdge
deriving DecidableEq

def Graph.hasNodeId (g : Graph) (i : ℕ) : Bool :=
  g.nodes.any (fun nd => nd.1.id = i)

def Graph.orderOf (g : Graph) (i : ℕ) : Dy :=
  ((g.nodes.filter (fun nd => nd.1.id = i)).headD (⟨0, NodeKind.cnot, []⟩, 0)).2

/-- The `wire_latest_node` table: wire label to the most recent node on that
wire (`none` models Python `None`). -/
def WMap : Type := List (ℕ × Option Node)

/-- The operations pass of `tape_to_graph`: add each operation as a node with
`order = k`, and for each of its wires add an edge from the latest node on
that wire (when there is one), then update the table. -/
def addOpWires (op : Node) : List ℕ → WMap → List GEdge → WMap × List GEdge
| [], latest, es => (latest, es)
| w :: ws, latest, es =>
  let prev := alistGetD latest w none
  let es' := match prev with
    | some parent => es ++ [⟨parent, op, w⟩]
    | none => es
  addOpWires op ws (alistSet latest w (some op)) es'

def addOps : List Node → ℕ → WMap → List (Node × Dy) × List GEdge × WMap
| [], _, latest => ([], [], latest)
| op :: rest, k, latest =>
  let (latest1, es1) := addOpWires op op.wires latest []
  let (ns, es, latest2) := addOps rest (k + 1) latest1
  ((op, Dy.ofInt k) :: ns, es1 ++ es, latest2)

/-- The measurements pass of `tape_to_graph`: tensor-product observables are
split into one fresh `MeasurementProcess` node per factor; each measurement
node is attached to the latest node on every wire it reads.  Attaching to an
absent latest node models `networkx`'s rejection of `None` nodes. -/
def addMeasEdges (m : Node) : List ℕ → WMap → Except String (List GEdge)
| [], _ => Except.ok []
| w :: ws, latest =>
  match alistGetD latest w none with
  | none => Except.error "None cannot be a node"
  | some parent => do
    let es ← addMeasEdges m ws latest
    Except.ok (⟨parent, m, w⟩ :: es)

def addMeasurements : List Node → ℕ → ℕ → WMap →
    Except String (List (Node × Dy) × List GEdge × ℕ)
| [], _, fresh, _ => Except.ok ([], [], fresh)
| m :: ms, order, fresh, latest =>
  match m.kind with
  | NodeKind.measProc r (Obs.tensor fs) => do
    let split : List Node := (List.range fs.length).map (fun j =>
      let f := fs.getD j (PFactor.fI, 0)
      ⟨fresh + j, NodeKind.measProc r (Obs.single f.1 f.2), [f.2]⟩)
    let pieces ← exceptMapM (fun j => do
      let m_ := split.getD j ⟨0, NodeKind.cnot, []⟩
      let es ← addMeasEdges m_ m_.wires latest
      Except.ok ((m_, Dy.ofInt (order + j)), es)) (List.range fs.length)
    let (ns, es, fresh') ← addMeasurements ms (order + fs.length) (fresh + fs.length) latest
    Except.ok ((pieces.map Prod.fst) ++ ns, (pieces.map Prod.snd).flatten ++ es, fresh')
  | _ => do
    let es ← addMeasEdges m m.wires latest
    let (ns, es', fresh') ← addMeasurements ms (order + 1) fresh latest
    Except.ok ((m, Dy.ofInt order) :: ns, es ++ es', fresh')

/-- `tape_to_graph`: convert a tape to the circuit multigraph.  When the
operations list is empty the `order` loop variable is never bound, and the
subsequent `order += 1` raises a `NameError`; this is modelled by the error
branch.  `fresh` is the allocation counter for the split measurement nodes. -/
def tape_to_graph (t : Tape) (fresh : ℕ) : Except String (Graph × ℕ) :=
  let init : WMap := t.wiresList.map (fun w => (w, none))
  let res := addOps t.ops 0 init
  if t.ops.isEmpty then Except.error "NameError: name order is not defined"
  else do
    let (mns, mes, fresh') ← addMeasurements t.meas t.ops.length fresh res.2.2
    Except.ok (⟨res.1 ++ mns, res.2.1 ++ mes⟩, fresh')

/-- The four simple preparation settings `PREPARE_SETTINGS`:
`|0⟩` (Identity), `|1⟩` (PauliX), `|+⟩` (Hadamard), `|+i⟩` (Hadamard; S). -/
def PREPARE_SETTINGS : List (List SQGate) :=
  [[SQGate.gI], [SQGate.gX], [SQGate.gH], [SQGate.gH, SQGate.gS]]

/-- The four simple measurement settings `MEASURE_SETTINGS`. -/
def MEASURE_SETTINGS : List PFactor :=
  [PFactor.fI, PFactor.fX, PFactor.fY, PFactor.fZ]

/-- Last-wins wire-to-node table built from the incident edges of a node
(`predecessor_on_wire` / `successor_on_wire`). -/
def wireTable : List (ℕ × Node) → List GEdge → List (ℕ × Node)
| acc, [] => acc
| acc, e :: es => wireTable (alistSet acc e.wire e.src) es

def wireTableDst : List (ℕ × Node) → List GEdge → List (ℕ × Node)
| acc, [] => acc
| acc, e :: es => wireTableDst (alistSet acc e.wire e.dst) es

/-- Splice the measure/prepare pair for one wire of a removed `WireCut`:
insert the pair with orders `o` and `o + 1/2`, connect `meas → prep`, and
reconnect the wire's predecessor and successor when they exist. -/
def spliceWire (g : Graph) (o : Dy) (predT succT : List (ℕ × Node))
    (meas prep : Node) (w : ℕ) : Graph :=
  let g1 : Graph := ⟨g.nodes ++ [(meas, o), (prep, Dy.add o Dy.half)], g.edges ++ [⟨meas, prep, w⟩]⟩
  let g3 : Graph :=
    match alistGetD (predT.map (fun kv => (kv.1, some kv.2))) w none with
    | some p => ⟨g1.nodes, g1.edges ++ [⟨p, meas, w⟩]⟩
    | none => g1
  match alistGetD (succT.map (fun kv => (kv.1, some kv.2))) w none with
  | some s => ⟨g3.nodes, g3.edges ++ [⟨prep, s, w⟩]⟩
  | none => g3

/-- `remove_wire_cut_node`: replace one `WireCut` node by a
`SimpleMeasureNode` / `SimplePrepareNode` pair per wire, splicing the pairs
into the wire chains.  Allocation order (measure then prepare, per wire)
follows the default `expand_cut`. -/
def remove_wire_cut_node (node : Node) (g : Graph) (fresh : ℕ) : Graph × ℕ :=
  let predT := wireTable [] (g.edges.filter (fun e => e.dst.id = node.id))
  let succT := wireTableDst [] (g.edges.filter (fun e => e.src.id = node.id))
  let o := g.orderOf node.id
  let g0 : Graph := ⟨g.nodes.filter (fun nd => nd.1.id ≠ node.id),
                     g.edges.filter (fun e => e.src.id ≠ node.id ∧ e.dst.id ≠ node.id)⟩
  let step := fun (acc : Graph × ℕ) (j : ℕ) =>
    let w := node.wires.getD j 0
    let meas : Node := ⟨acc.2, NodeKind.measureNode MEASURE_SETTINGS, [w]⟩
    let prep : Node := ⟨acc.2 + 1, NodeKind.prepareNode PREPARE_SETTINGS, [w]⟩
    (spliceWire acc.1 o predT succT meas prep w, acc.2 + 2)
  (List.range node.wires.length).foldl step (g0, fresh)

/-- `remove_wire_cut_nodes`: remove every `WireCut` from the graph, iterating
over a snapshot of the node list in insertion order. -/
def remove_wire_cut_nodes (g : Graph) (fresh : ℕ) : Graph × ℕ :=
  let wcs := (g.nodes.filter (fun nd => nd.1.kind.isWireCut)).map Prod.fst
  wcs.foldl (fun acc wc => remove_wire_cut_node wc acc.1 acc.2) (g, fresh)

/-- Undirected neighbour ids of a node, from the edge list. -/
def adjIds (es : List GEdge) (v : ℕ) : List ℕ :=
  es.filterMap (fun e =>
    if e.src.id = v then some e.dst.id
    else if e.dst.id = v then some e.src.id else none)

/-- Fuelled breadth-first search collecting the ids of one weakly connected
component. -/
def bfs (es : List GEdge) : ℕ → List ℕ → List ℕ → List ℕ
| 0, _, seen => seen
| _ + 1, [], seen => seen
| fuel + 1, v :: rest, seen =>
  if v ∈ seen then bfs es fuel rest seen
  else bfs es fuel (rest ++ adjIds es v) (seen ++ [v])

def bfsFuel (g : Graph) : ℕ := (g.nodes.length + 1) * (2 * g.edges.length + 2)

/-- `weakly_connected_components`: components listed in order of the first
node of each (node insertion order), each component as a list of node ids. -/
def weaklyConnectedComponents (g : Graph) : List (List ℕ) :=
  (g.nodes.foldl (fun (acc : List (List ℕ) × List ℕ) nd =>
    if nd.1.id ∈ acc.2 then acc
    else
      let comp := bfs g.edges (bfsFuel g) [nd.1.id] []
      (acc.1 ++ [comp], acc.2 ++ comp)) ([], [])).1

/-- The induced subgraph on a set of node ids, preserving the original
insertion order of nodes and edges (a `networkx` subgraph view). -/
def Graph.subgraph (g : Graph) (c : List ℕ) : Graph :=
  ⟨g.nodes.filter (fun nd => nd.1.id ∈ c),
   g.edges.filter (fun e => e.src.id ∈ c ∧ e.dst.id ∈ c)⟩

/-- The communication graph: nodes are fragment indices `0..n-1`, edges carry
the `(MeasureNode, PrepareNode)` pair of the cut they represent. -/
structure CommGraph where
  n : ℕ
  edges : List (ℕ × ℕ × Node × Node)
deriving DecidableEq

/-- Fragment index containing a given node id; the source loops over all
subgraphs letting the last match win. -/
def lastFragmentWith (subs : List Graph) (i : ℕ) : ℕ :=
  (subs.enum.foldl (fun acc sg => if sg.2.hasNodeId i then sg.1 else acc) 0)

/-- `fragment_graph`: collect the `MeasureNode → PrepareNode` edges (asserting
the destination kind), remove them, split the residual graph into weakly
connected components, and build the communication graph with one edge per cut
edge. -/
def fragment_graph (g : Graph) : Except String (List Graph × CommGraph) :=
  let cutEdges := g.edges.filter (fun e => e.src.kind.isMeasureNode)
  if cutEdges.any (fun e => ¬ e.dst.kind.isPrepareNode) then
    Except.error "AssertionError"
  else
    let residual : Graph := ⟨g.nodes, g.edges.filter (fun e => ¬ e.src.kind.isMeasureNode)⟩
    let comps := weaklyConnectedComponents residual
    let subgraphs := comps.map residual.subgraph
    let commEdges := cutEdges.map (fun e =>
      (lastFragmentWith subgraphs e.src.id, lastFragmentWith subgraphs e.dst.id,
       e.src, e.dst))
    Except.ok (subgraphs, ⟨subgraphs.length, commEdges⟩)

/-- `_find_new_wire`: the smallest natural number not in the wire list. -/
def findNewWireAux : ℕ → ℕ → List ℕ → ℕ
| ctr, 0, _ => ctr
| ctr, fuel + 1, wires => if ctr ∈ wires then findNewWireAux (ctr + 1) fuel wires else ctr

def find_new_wire (wires : List ℕ) : ℕ := findNewWireAux 0 (wires.length + 1) wires

/-- State threaded through the `graph_to_tape` emission loop. -/
structure LowerState where
  wireMap : List (ℕ × ℕ)
  wires : List ℕ
  ops : List Node
  meas : List Node
  updated : List Node

/-- One step of `graph_to_tape`: remap the operator's wires through
`wire_map` (modelling the destructive `op._wires = Wires(new_wires)`), apply
it to the tape under construction, and on a `MeasureNode` allocate a fresh
wire for everything after the measurement. -/
def lowerStep (st : LowerState) (nd : Node) : LowerState :=
  let newWires := nd.wires.map (fun w => alistGetD st.wireMap w w)
  let nd' : Node := ⟨nd.id, nd.kind, newWires⟩
  let st1 : LowerState :=
    if nd.kind.isMeasProc then
      ⟨st.wireMap, st.wires, st.ops, st.meas ++ [nd'], st.updated ++ [nd']⟩
    else
      ⟨st.wireMap, st.wires, st.ops ++ [nd'], st.meas, st.updated ++ [nd']⟩
  if nd.kind.isMeasureNode then
    let measuredWire := nd'.wires.headD 0
    let newWire := find_new_wire st1.wires
    ⟨alistSet st1.wireMap measuredWire newWire, st1.wires ++ [newWire],
     st1.ops, st1.meas, st1.updated⟩
  else st1

/-- `graph_to_tape`: linearise a fragment graph by sorted `order` and emit a
tape; returns the tape together with the post-mutation values of all graph
nodes (the source mutates the shared node objects in place). -/
def graph_to_tape (g : Graph) : Tape × List Node :=
  let wires0 := dedupFirst ((g.nodes.map (fun nd => nd.1.wires)).flatten)
  let ordered := (List.insertionSort (fun a b => Dy.Le a.2 b.2) g.nodes).map Prod.fst
  let st := ordered.foldl lowerStep ⟨wires0.map (fun w => (w, w)), wires0, [], [], []⟩
  (⟨st.ops, st.meas⟩, st.updated)

/-- Gate sequence queued by a preparation setting applied at a wire
(`_prep_*_state`); generated gate objects are modelled with id `0`. -/
def prepGatesAt (setting : List SQGate) (w : ℕ) : List Node :=
  setting.map (fun g => ⟨0, NodeKind.gate1 g, [w]⟩)

def Node.prepTerms (n : Node) : List (List SQGate) :=
  match n.kind with
  | NodeKind.prepareNode ts => ts
  | _ => []

def Node.measTerms (n : Node) : List PFactor :=
  match n.kind with
  | NodeKind.measureNode ts => ts
  | _ => []

/-- The observable classes accepted by the source's `isinstance` check in the
tensor branch: `(Identity, PauliX, PauliY, PauliY)` — `PauliZ` is absent. -/
def tensorFactorOk (p : PFactor) : Bool :=
  p = PFactor.fI ∨ p = PFactor.fX ∨ p = PFactor.fY

/-- The observable classes accepted in the single-observable branch:
`(Identity, PauliX, PauliY, PauliZ)`. -/
def singleFactorOk (p : PFactor) : Bool :=
  p = PFactor.fI ∨ p = PFactor.fX ∨ p = PFactor.fY ∨ p = PFactor.fZ

/-- Stable sort of `(wire, factor)` pairs by wire, modelling
`sorted(op_tensor_wires + m_obs_wires)` (wires assumed distinct, as tuple
comparison would otherwise fall through to comparing operators). -/
def sortByWire (l : List (ℕ × PFactor)) : List (ℕ × PFactor) :=
  List.insertionSort (fun a b => a.1 ≤ b.1) l

/-- Merge the running cut-measurement tensor with a user observable's factors
and emit the combined terminal expectation (`full_tensor`). -/
def mergedMeasurement (opTensor : List (PFactor × ℕ)) (fs : List (PFactor × ℕ)) : Node :=
  let allWires := sortByWire (opTensor.map (fun f => (f.2, f.1)) ++ fs.map (fun f => (f.2, f.1)))
  ⟨0, NodeKind.measProc RetType.expectation (Obs.tensor (allWires.map (fun f => (f.2, f.1)))),
   allWires.map Prod.fst⟩

/-- Rewrite one user measurement for a configuration tape, performing the
source's return-type and observable checks. -/
def rewriteMeasurement (opTensor : List (PFactor × ℕ)) (m : Node) : Except String Node :=
  match m.kind with
  | NodeKind.measProc r obs =>
    if r ≠ RetType.expectation then
      Except.error "Only expectation values supported for now"
    else
      match obs with
      | Obs.tensor fs =>
        if fs.any (fun f => ¬ tensorFactorOk f.1) then
          Except.error "Only tensor products of Paulis for now"
        else Except.ok (mergedMeasurement opTensor fs)
      | Obs.single p w =>
        if ¬ singleFactorOk p then
          Except.error "Only tensor products of Paulis for now"
        else Except.ok (mergedMeasurement opTensor [(p, w)])
  | _ => Except.ok m

/-- One step of the configuration-tape operation loop: replace a
`PrepareNode` by its chosen gate sequence, collect a `MeasureNode`, re-emit
anything else. -/
def configOpsStep (prepMapping : List (ℕ × List SQGate))
    (acc : List Node × List Node) (op : Node) : List Node × List Node :=
  match op.kind with
  | NodeKind.prepareNode _ =>
    (acc.1 ++ prepGatesAt (alistGetD prepMapping op.id []) (op.wires.headD 0), acc.2)
  | NodeKind.measureNode _ => (acc.1, acc.2 ++ [op])
  | _ => (acc.1 ++ [op], acc.2)

/-- Build the configuration tape for one choice of preparation settings `ps`
and measurement settings `ms`:  replace each `PrepareNode` by its chosen gate
sequence, collect each `MeasureNode`'s chosen Pauli into the running tensor,
re-emit every other operation, then synthesise the terminal measurement. -/
def buildConfig (t : Tape) (pn mn : List Node) (ps : List (List SQGate))
    (ms : List PFactor) : Except String Tape :=
  let prepMapping := (pn.zip ps).map (fun x => (x.1.id, x.2))
  let measMapping := (mn.zip ms).map (fun x => (x.1.id, x.2))
  let acc := t.ops.foldl (configOpsStep prepMapping) ([], [])
  let opTensor : List (PFactor × ℕ) :=
    acc.2.map (fun op => (alistGetD measMapping op.id PFactor.fI, op.wires.headD 0))
  match t.meas with
  | _ :: _ => do
    let newMeas ← exceptMapM (rewriteMeasurement opTensor) t.meas
    Except.ok ⟨acc.1, newMeas⟩
  | [] =>
    match opTensor with
    | _ :: _ =>
      Except.ok ⟨acc.1, [⟨0, NodeKind.measProc RetType.expectation (Obs.tensor opTensor),
                          opTensor.map Prod.snd⟩]⟩
    | [] =>
      match t.wiresList with
      | [] => Except.error "IndexError: list index out of range"
      | w :: _ =>
        Except.ok ⟨acc.1, [⟨0, NodeKind.measProc RetType.expectation (Obs.single PFactor.fI w),
                            [w]⟩]⟩

/-- `expand_fragment_tapes`: enumerate the Cartesian product of preparation
and measurement settings — all prepare-tuples outermost, measure-tuples
innermost, nodes within a tuple in fragment-tape order — and build one
configuration tape per combination. -/
def expand_fragment_tapes (t : Tape) :
    Except String (List Tape × List Node × List Node) :=
  let prepare_nodes := t.ops.filter (fun o => o.kind.isPrepareNode)
  let measure_nodes := t.ops.filter (fun o => o.kind.isMeasureNode)
  let prepCombos := listProd (prepare_nodes.map Node.prepTerms)
  let measCombos := listProd (measure_nodes.map Node.measTerms)
  let combos := prepCombos.flatMap (fun ps => measCombos.map (fun ms => (ps, ms)))
  do
    let tapes ← exceptMapM (fun c => buildConfig t prepare_nodes measure_nodes c.1 c.2) combos
    Except.ok (tapes, prepare_nodes, measure_nodes)

/-- 2×2 matrix of a single-qubit gate over `K` (row, column). -/
def gateMat (g : SQGate) : ℕ → ℕ → K
| 0, 0 => match g with
  | SQGate.gI => 1 | SQGate.gX => 0 | SQGate.gY => 0 | SQGate.gZ => 1
  | SQGate.gH => K.invSqrt2 | SQGate.gS => 1
| 0, 1 => match g with
  | SQGate.gI => 0 | SQGate.gX => 1 | SQGate.gY => K.neg K.imag | SQGate.gZ => 0
  | SQGate.gH => K.invSqrt2 | SQGate.gS => 0
| 1, 0 => match g with
  | SQGate.gI => 0 | SQGate.gX => 1 | SQGate.gY => K.imag | SQGate.gZ => 0
  | SQGate.gH => K.invSqrt2 | SQGate.gS => 0
| 1, 1 => match g with
  | SQGate.gI => 1 | SQGate.gX => 0 | SQGate.gY => 0 | SQGate.gZ => -1
  | SQGate.gH => K.neg K.invSqrt2 | SQGate.gS => K.imag
| _, _ => 0

/-- The Pauli observable matrix of a factor (`fOther` never reaches the
simulator: it is rejected earlier by the observable checks). -/
def factorGate : PFactor → SQGate
| PFactor.fI => SQGate.gI
| PFactor.fX => SQGate.gX
| PFactor.fY => SQGate.gY
| PFactor.fZ => SQGate.gZ
| PFactor.fOther => SQGate.gI

/-- Apply a single-qubit matrix at qubit position `q` of a state vector. -/
def applyMat (U : ℕ → ℕ → K) (q : ℕ) (st : List K) : List K :=
  (List.range st.length).map (fun bi =>
    let b := (bi / 2 ^ q) % 2
    let bi0 := bi - b * 2 ^ q
    U b 0 * st.getD bi0 0 + U b 1 * st.getD (bi0 + 2 ^ q) 0)

/-- Apply a CNOT with control position `c` and target position `tp`. -/
def applyCNOT (c tp : ℕ) (st : List K) : List K :=
  (List.range st.length).map (fun bi =>
    if (bi / 2 ^ c) % 2 = 1 then
      st.getD (if (bi / 2 ^ tp) % 2 = 1 then bi - 2 ^ tp else bi + 2 ^ tp) 0
    else st.getD bi 0)

/-- Apply a tensor product of Pauli factors (given with wire labels, mapped
to positions through the tape wire list `ws`). -/
def applyObs (ws : List ℕ) (fs : List (PFactor × ℕ)) (st : List K) : List K :=
  fs.foldl (fun acc f => applyMat (gateMat (factorGate f.1)) (idxOf ws f.2) acc) st

/-- One simulator step: gates act, everything else (cut markers, synthetic
nodes) acts as the identity channel. -/
def simStep (ws : List ℕ) (st : List K) (op : Node) : List K :=
  match op.kind with
  | NodeKind.gate1 g => applyMat (gateMat g) (idxOf ws (op.wires.headD 0)) st
  | NodeKind.cnot => applyCNOT (idxOf ws (op.wires.headD 0)) (idxOf ws (op.wires.getD 1 0)) st
  | _ => st

/-- `⟨ψ|O|ψ⟩` for a state and an observable's factors. -/
def expvalK (ws : List ℕ) (st : List K) (fs : List (PFactor × ℕ)) : K :=
  let ost := applyObs ws fs st
  K.sum ((List.range st.length).map (fun i => K.conj (st.getD i 0) * ost.getD i 0))

/-- Exact state-vector simulation of a tape starting from `|0…0⟩` over the
tape's wires; returns one expectation value per terminal measurement (the
per-configuration "result object" of the simulator contract). -/
def simulate (t : Tape) : List K :=
  let ws := t.wiresList
  let n := ws.length
  let init := (List.range (2 ^ n)).map (fun i => if i = 0 then (1 : K) else 0)
  let st := t.ops.foldl (simStep ws) init
  t.meas.map (fun m =>
    match m.kind with
    | NodeKind.measProc _ o => expvalK ws st o.factors
    | _ => 0)

/-- The fixed change-of-basis matrix `CHANGE_OF_BASIS_MAT`. -/
def CHANGE_OF_BASIS_MAT : ℕ → ℕ → ℤ :=
  fun r c => ((([[1, 1, 0, 0], [-1, -1, 2, 0], [-1, -1, 0, 2], [1, -1, 0, 0]] :
    List (List ℤ)).getD r []).getD c 0)

/-- A fragment tensor: entries indexed by a list of axis indices (each in
`0..3`). -/
structure TensorK where
  entry : List ℕ → K

/-- Row-major flat index of a multi-index with radix 4. -/
def flatIndex (idx : List ℕ) : ℕ := idx.foldl (fun a d => a * 4 + d) 0

/-- Insert a value at a position of a list (used to reconstruct the
contracted axis of `tensordot`). -/
def insAt {α : Type} : ℕ → α → List α → List α
| 0, a, l => a :: l
| _ + 1, a, [] => [a]
| n + 1, a, x :: l => x :: insAt n a l

def sumFin4 (f : ℕ → K) : K := f 0 + f 1 + f 2 + f 3

/-- `np.tensordot(CHANGE_OF_BASIS_MAT, T, axes=[1, i])`: contract the
matrix's second axis with axis `i` of `T`.  The resulting tensor carries the
matrix's remaining axis FIRST, followed by the remaining axes of `T` in
order — this prepending is what reverses the prepare-axis order when the
loop applies it to axes `0, 1, …` in turn. -/
def tensordotC (T : TensorK) (i : ℕ) : TensorK :=
  ⟨fun idx =>
    match idx with
    | [] => 0
    | k :: rest => sumFin4 (fun j => K.ofInt (CHANGE_OF_BASIS_MAT k j) * T.entry (insAt i j rest))⟩

/-- `math.stack(results[ctr : s + ctr]).reshape(target_shape)` with the
shape checks of numpy: stacking requires a non-empty slice of equal-length
results, and reshaping requires the total size to match `4^(n_prep+n_meas)`. -/
def stackReshape (slice : List (List K)) (n : ℕ) : Except String TensorK :=
  match slice with
  | [] => Except.error "ValueError: need at least one array to stack"
  | r0 :: rest =>
    if rest.any (fun r => r.length ≠ r0.length) then
      Except.error "ValueError: all input arrays must have the same shape"
    else if slice.length * r0.length ≠ 4 ^ n then
      Except.error "ValueError: cannot reshape array"
    else
      let flat := slice.flatten
      Except.ok ⟨fun idx => flat.getD (flatIndex idx) 0⟩

def TensorK.scale (T : TensorK) (c : K) : TensorK := ⟨fun idx => c * T.entry idx⟩

/-- The per-fragment loop of `_get_tensors`: slice `results[ctr : ctr+s]`,
reshape to a `4`-ary tensor with the prepare axes first, rescale by
`2^(-(n_meas+n_prep)/2)`, and apply the change-of-basis matrix along each
prepare axis in turn. -/
def getTensorsGo (results : List (List K)) :
    List (ℕ × List Node × List Node) → ℕ → Except String (List TensorK)
| [], _ => Except.ok []
| tr :: rest, ctr => do
  let s := tr.1
  let nPrep := tr.2.1.length
  let nMeas := tr.2.2.length
  let slice := (results.drop ctr).take s
  let T0 ← stackReshape slice (nPrep + nMeas)
  let T1 := T0.scale (K.pow K.invSqrt2 (nMeas + nPrep))
  let T2 := (List.range nPrep).foldl tensordotC T1
  let ts ← getTensorsGo results rest (ctr + s)
  Except.ok (T2 :: ts)

/-- `_get_tensors`: one tensor per fragment, walking the flat results with a
running counter. -/
def _get_tensors (results : List (List K)) (shapes : List ℕ)
    (prepare_nodes measure_nodes : List (List Node)) : Except String (List TensorK) :=
  getTensorsGo results (shapes.zip (prepare_nodes.zip measure_nodes)) 0

/-- Predecessor pairs of a communication-graph node: distinct predecessor
fragments in insertion order of their first edge, each predecessor's edges in
insertion order (iteration over `communication_graph.pred[node]`). -/
def predPairs (cg : CommGraph) (v : ℕ) : List (Node × Node) :=
  let incoming := cg.edges.filter (fun e => e.2.1 = v)
  let srcs := dedupFirst (incoming.map Prod.fst)
  (srcs.map (fun u => (incoming.filter (fun e => e.1 = u)).map (fun e => e.2.2))).flatten

/-- Successor pairs, analogously (`communication_graph.succ[node]`). -/
def succPairs (cg : CommGraph) (v : ℕ) : List (Node × Node) :=
  let outgoing := cg.edges.filter (fun e => e.1 = v)
  let dsts := dedupFirst (outgoing.map (fun e => e.2.1))
  (dsts.map (fun u => (outgoing.filter (fun e => e.2.1 = u)).map (fun e => e.2.2))).flatten

/-- State of the symbol-assignment loops of `_contract_tensors`. -/
structure SymState where
  ctr : ℕ
  indxs : List (List ℕ)
  measMap : List (ℕ × ℕ)

def appendAt (l : List (List ℕ)) (i : ℕ) (s : ℕ) : List (List ℕ) :=
  l.enum.map (fun x => if x.1 = i then x.2 ++ [s] else x.2)

/-- First loop of `_contract_tensors`: walk fragments in index order; for
each incoming cut edge whose `PrepareNode` occurs (by identity) in the
fragment's prepare list, assign the next einsum symbol and register it for
the paired `MeasureNode`. -/
def prepSymbols (cg : CommGraph) (prepare_nodes : List (List Node)) : SymState :=
  (List.range cg.n).foldl (fun st i =>
    let prep := prepare_nodes.getD i []
    (predPairs cg i).foldl (fun st pr =>
      prep.foldl (fun st p =>
        if p.id = pr.2.id then
          ⟨st.ctr + 1, appendAt st.indxs i st.ctr, alistSet st.measMap pr.1.id st.ctr⟩
        else st) st) st)
    ⟨0, List.replicate cg.n [], []⟩

/-- Second loop: for each outgoing cut edge whose `MeasureNode` occurs in the
fragment's measure list, append the symbol registered for that node. -/
def measSymbols (cg : CommGraph) (measure_nodes : List (List Node)) (st0 : SymState) : SymState :=
  (List.range cg.n).foldl (fun st i =>
    let meas := measure_nodes.getD i []
    (succPairs cg i).foldl (fun st pr =>
      meas.foldl (fun st m =>
        if m.id = pr.1.id then
          ⟨st.ctr, appendAt st.indxs i (alistGetD st.measMap pr.1.id 0), st.measMap⟩
        else st) st) st) st0

/-- Full einsum contraction: sum over all assignments of the symbols (each
axis has size 4) of the product of the fragment tensor entries. -/
def einsumContract (tensors : List TensorK) (indxs : List (List ℕ)) (nSym : ℕ) : K :=
  let assignments := listProd (List.replicate nSym [0, 1, 2, 3])
  K.sum (assignments.map (fun σ =>
    (tensors.zip indxs).foldl (fun acc ti =>
      acc * ti.1.entry (ti.2.map (fun s => σ.getD s 0))) 1))

/-- `_contract_tensors`: assign einsum symbols from the communication graph
and contract.  (A `meas_map` lookup for an unregistered `MeasureNode`, a
`KeyError` in Python, is modelled by symbol 0; all claims stay within the
registered regime.) -/
def _contract_tensors (tensors : List TensorK) (communication_graph : CommGraph)
    (prepare_nodes measure_nodes : List (List Node)) : K :=
  let st := measSymbols communication_graph measure_nodes
    (prepSymbols communication_graph prepare_nodes)
  einsumContract tensors st.indxs st.ctr

/-- `contract`: the explicit arity check (`len(results[0]) > 1`) followed by
tensor assembly and contraction. -/
def contract (results : List (List K)) (shapes : List ℕ)
    (communication_graph : CommGraph)
    (prepare_nodes measure_nodes : List (List Node)) : Except String K :=
  match results with
  | [] => Except.error "IndexError: list index out of range"
  | r :: _ =>
    if 1 < r.length then
      Except.error "Only supporting returning a single expectation for now"
    else do
      let tensors ← _get_tensors results shapes prepare_nodes measure_nodes
      Except.ok (_contract_tensors tensors communication_graph prepare_nodes measure_nodes)

/-- The data captured by the post-processing closure returned by
`cut_circuit`. -/
structure PostData where
  shapes : List ℕ
  communication_graph : CommGraph
  prepare_nodes : List (List Node)
  measure_nodes : List (List Node)
deriving DecidableEq

/-- First unused object id for a tape (allocation counter start). -/
def freshBase (t : Tape) : ℕ :=
  ((t.ops ++ t.meas).map Node.id).foldr max 0 + 1

/-- `cut_circuit` with `method=None`: lift the tape to a graph, remove the
explicit wire cuts, fragment, lower each fragment to a tape, expand each
fragment into configuration tapes, and return the flat tape list together
with the data bound into the `contract` closure. -/
def cut_circuit (t : Tape) : Except String (List Tape × PostData) := do
  let (g, fresh) ← tape_to_graph t (freshBase t)
  let (g2, _) := remove_wire_cut_nodes g fresh
  let (fragments, communication_graph) ← fragment_graph g2
  let fragment_tapes := fragments.map (fun f => (graph_to_tape f).1)
  let expanded ← exceptMapM expand_fragment_tapes fragment_tapes
  let configurations := expanded.map (fun e => e.1)
  let prepare_nodes := expanded.map (fun e => e.2.1)
  let measure_nodes := expanded.map (fun e => e.2.2)
  let shapes := configurations.map List.length
  Except.ok (configurations.flatten,
    ⟨shapes, communication_graph, prepare_nodes, measure_nodes⟩)

/-- Run the full pipeline on a tape, evaluate every configuration tape with
the exact simulator, and post-process with `contract`. -/
def pipelineValue (t : Tape) : Except String K := do
  let (tapes, pd) ← cut_circuit t
  contract (tapes.map simulate) pd.shapes pd.communication_graph
    pd.prepare_nodes pd.measure_nodes

/-- The uncut original of a tape: the same tape with the `WireCut` markers
(which are physically inert) removed. -/
def uncut (t : Tape) : Tape :=
  ⟨t.ops.filter (fun op => ¬ op.kind.isWireCut), t.meas⟩

/-- The expectation value of the (single-measurement) uncut tape computed
directly by the exact simulator. -/
def directValue (t : Tape) : K := (simulate (uncut t)).headD 0

set_option maxRecDepth 100000
set_option maxHeartbeats 2000000

/-!
## Concrete inputs

`exC1` is the two-cut circuit `X(0); WireCut(0); WireCut(1); CNOT(0,1);
expval(Z(0))`.  Both cuts feed the same fragment, so that fragment has two
`PrepareNode`s — the case in which the tensor assembler's prepare-axis order
and the contractor's symbol order disagree. -/
def exC1 : Tape :=
  ⟨[⟨1, NodeKind.gate1 SQGate.gX, [0]⟩,
    ⟨2, NodeKind.wireCut, [0]⟩,
    ⟨3, NodeKind.wireCut, [1]⟩,
    ⟨4, NodeKind.cnot, [0, 1]⟩],
   [⟨5, NodeKind.measProc RetType.expectation (Obs.single PFactor.fZ 0), [0]⟩]⟩

def exC1tapes : List Tape :=
  [(Tape.mk [(Node.mk 1 (NodeKind.gate1 SQGate.gX) [0])] [(Node.mk 0 (NodeKind.measProc RetType.expectation (Obs.tensor [(PFactor.fI, 0)])) [0])]), (Tape.mk [(Node.mk 1 (NodeKind.gate1 SQGate.gX) [0])] [(Node.mk 0 (NodeKind.measProc RetType.expectation (Obs.tensor [(PFactor.fX, 0)])) [0])]), (Tape.mk [(Node.mk 1 (NodeKind.gate1 SQGate.gX) [0])] [(Node.mk 0 (NodeKind.measProc RetType.expectation (Obs.tensor [(PFactor.fY, 0)])) [0])]), (Tape.mk [(Node.mk 1 (NodeKind.gate1 SQGate.gX) [0])] [(Node.mk 0 (NodeKind.measProc RetType.expectation (Obs.tensor [(PFactor.fZ, 0)])) [0])]), (Tape.mk [(Node.mk 0 (NodeKind.gate1 SQGate.gI) [0]), (Node.mk 0 (NodeKind.gate1 SQGate.gI) [1]), (Node.mk 4 (NodeKind.cnot) [0, 1])] [(Node.mk 0 (NodeKind.measProc RetType.expectation (Obs.tensor [(PFactor.fZ, 0)])) [0])]), (Tape.mk [(Node.mk 0 (NodeKind.gate1 SQGate.gI) [0]), (Node.mk 0 (NodeKind.gate1 SQGate.gX) [1]), (Node.mk 4 (NodeKind.cnot) [0, 1])] [(Node.mk 0 (NodeKind.measProc RetType.expectation (Obs.tensor [(PFactor.fZ, 0)])) [0])]), (Tape.mk [(Node.mk 0 (NodeKind.gate1 SQGate.gI) [0]), (Node.mk 0 (NodeKind.gate1 SQGate.gH) [1]), (Node.mk 4 (NodeKind.cnot) [0, 1])] [(Node.mk 0 (NodeKind.measProc RetType.expectation (Obs.tensor [(PFactor.fZ, 0)])) [0])]), (Tape.mk [(Node.mk 0 (NodeKind.gate1 SQGate.gI) [0]), (Node.mk 0 (NodeKind.gate1 SQGate.gH) [1]), (Node.mk 0 (NodeKind.gate1 SQGate.gS) [1]), (Node.mk 4 (NodeKind.cnot) [0, 1])] [(Node.mk 0 (NodeKind.measProc RetType.expectation (Obs.tensor [(PFactor.fZ, 0)])) [0])]), (Tape.mk [(Node.mk 0 (NodeKind.gate1 SQGate.gX) [0]), (Node.mk 0 (NodeKind.gate1 SQGate.gI) [1]), (Node.mk 4 (NodeKind.cnot) [0, 1])] [(Node.mk 0 (NodeKind.measProc RetType.expectation (Obs.tensor [(PFactor.fZ, 0)])) [0])]), (Tape.mk [(Node.mk 0 (NodeKind.gate1 SQGate.gX) [0]), (Node.mk 0 (NodeKind.gate1 SQGate.gX) [1]), (Node.mk 4 (NodeKind.cnot) [0, 1])] [(Node.mk 0 (NodeKind.measProc RetType.expectation (Obs.tensor [(PFactor.fZ, 0)])) [0])]), (Tape.mk [(Node.mk 0 (NodeKind.gate1 SQGate.gX) [0]), (Node.mk 0 (NodeKind.gate1 SQGate.gH) [1]), (Node.mk 4 (NodeKind.cnot) [0, 1])] [(Node.mk 0 (NodeKind.measProc RetType.expectation (Obs.tensor [(PFactor.fZ, 0)])) [0])]), (Tape.mk [(Node.mk 0 (NodeKind.gate1 SQGate.gX) [0]), (Node.mk 0 (NodeKind.gate1 SQGate.gH) [1]), (Node.mk 0 (NodeKind.gate1 SQGate.gS) [1]), (Node.mk 4 (NodeKind.cnot) [0, 1])] [(Node.mk 0 (NodeKind.measProc RetType.expectation (Obs.tensor [(PFactor.fZ, 0)])) [0])]), (Tape.mk [(Node.mk 0 (NodeKind.gate1 SQGate.gH) [0]), (Node.mk 0 (NodeKind.gate1 SQGate.gI) [1]), (Node.mk 4 (NodeKind.cnot) [0, 1])] [(Node.mk 0 (NodeKind.measProc RetType.expectation (Obs.tensor [(PFactor.fZ, 0)])) [0])]), (Tape.mk [(Node.mk 0 (NodeKind.gate1 SQGate.gH) [0]), (Node.mk 0 (NodeKind.gate1 SQGate.gX) [1]), (Node.mk 4 (NodeKind.cnot) [0, 1])] [(Node.mk 0 (NodeKind.measProc RetType.expectation (Obs.tensor [(PFactor.fZ, 0)])) [0])]), (Tape.mk [(Node.mk 0 (NodeKind.gate1 SQGate.gH) [0]), (Node.mk 0 (NodeKind.gate1 SQGate.gH) [1]), (Node.mk 4 (NodeKind.cnot) [0, 1])] [(Node.mk 0 (NodeKind.measProc RetType.expectation (Obs.tensor [(PFactor.fZ, 0)])) [0])]), (Tape.mk [(Node.mk 0 (NodeKind.gate1 SQGate.gH) [0]), (Node.mk 0 (NodeKind.gate1 SQGate.gH) [1]), (Node.mk 0 (NodeKind.gate1 SQGate.gS) [1]), (Node.mk 4 (NodeKind.cnot) [0, 1])] [(Node.mk 0 (NodeKind.measProc RetType.expectation (Obs.tensor [(PFactor.fZ, 0)])) [0])]), (Tape.mk [(Node.mk 0 (NodeKind.gate1 SQGate.gH) [0]), (Node.mk 0 (NodeKind.gate1 SQGate.gS) [0]), (Node.mk 0 (NodeKind.gate1 SQGate.gI) [1]), (Node.mk 4 (NodeKind.cnot) [0, 1])] [(Node.mk 0 (NodeKind.measProc RetType.expectation (Obs.tensor [(PFactor.fZ, 0)])) [0])]), (Tape.mk [(Node.mk 0 (NodeKind.gate1 SQGate.gH) [0]), (Node.mk 0 (NodeKind.gate1 SQGate.gS) [0]), (Node.mk 0 (NodeKind.gate1 SQGate.gX) [1]), (Node.mk 4 (NodeKind.cnot) [0, 1])] [(Node.mk 0 (NodeKind.measProc RetType.expectation (Obs.tensor [(PFactor.fZ, 0)])) [0])]), (Tape.mk [(Node.mk 0 (NodeKind.gate1 SQGate.gH) [0]), (Node.mk 0 (NodeKind.gate1 SQGate.gS) [0]), (Node.mk 0 (NodeKind.gate1 SQGate.gH) [1]), (Node.mk 4 (NodeKind.cnot) [0, 1])] [(Node.mk 0 (NodeKind.measProc RetType.expectation (Obs.tensor [(PFactor.fZ, 0)])) [0])]), (Tape.mk [(Node.mk 0 (NodeKind.gate1 SQGate.gH) [0]), (Node.mk 0 (NodeKind.gate1 SQGate.gS) [0]), (Node.mk 0 (NodeKind.gate1 SQGate.gH) [1]), (Node.mk 0 (NodeKind.gate1 SQGate.gS) [1]), (Node.mk 4 (NodeKind.cnot) [0, 1])] [(Node.mk 0 (NodeKind.measProc RetType.expectation (Obs.tensor [(PFactor.fZ, 0)])) [0])]), (Tape.mk [] [(Node.mk 0 (NodeKind.measProc RetType.expectation (Obs.tensor [(PFactor.fI, 1)])) [1])]), (Tape.mk [] [(Node.mk 0 (NodeKind.measProc RetType.expectation (Obs.tensor [(PFactor.fX, 1)])) [1])]), (Tape.mk [] [(Node.mk 0 (NodeKind.measProc RetType.expectation (Obs.tensor [(PFactor.fY, 1)])) [1])]), (Tape.mk [] [(Node.mk 0 (NodeKind.measProc RetType.expectation (Obs.tensor [(PFactor.fZ, 1)])) [1])])]

def exC1pd : PostData :=
  PostData.mk [4, 16, 4] (CommGraph.mk 3 [(0, 1, Node.mk 6 (NodeKind.measureNode [PFactor.fI, PFactor.fX, PFactor.fY, PFactor.fZ]) [0], Node.mk 7 (NodeKind.prepareNode [[SQGate.gI], [SQGate.gX], [SQGate.gH], [SQGate.gH, SQGate.gS]]) [0]), (2, 1, Node.mk 8 (NodeKind.measureNode [PFactor.fI, PFactor.fX, PFactor.fY, PFactor.fZ]) [1], Node.mk 9 (NodeKind.prepareNode [[SQGate.gI], [SQGate.gX], [SQGate.gH], [SQGate.gH, SQGate.gS]]) [1])]) [[], [(Node.mk 7 (NodeKind.prepareNode [[SQGate.gI], [SQGate.gX], [SQGate.gH], [SQGate.gH, SQGate.gS]]) [0]), (Node.mk 9 (NodeKind.prepareNode [[SQGate.gI], [SQGate.gX], [SQGate.gH], [SQGate.gH, SQGate.gS]]) [1])], []] [[(Node.mk 6 (NodeKind.measureNode [PFactor.fI, PFactor.fX, PFactor.fY, PFactor.fZ]) [0])], [], [(Node.mk 8 (NodeKind.measureNode [PFactor.fI, PFactor.fX, PFactor.fY, PFactor.fZ]) [1])]]

def exC1results : List (List K) :=
  [[(K.mk (Dy.mk 1 0) (Dy.mk 0 0) (Dy.mk 0 0) (Dy.mk 0 0))], [(K.mk (Dy.mk 0 0) (Dy.mk 0 0) (Dy.mk 0 0) (Dy.mk 0 0))], [(K.mk (Dy.mk 0 0) (Dy.mk 0 0) (Dy.mk 0 0) (Dy.mk 0 0))], [(K.mk (Dy.mk (-1) 0) (Dy.mk 0 0) (Dy.mk 0 0) (Dy.mk 0 0))], [(K.mk (Dy.mk 1 0) (Dy.mk 0 0) (Dy.mk 0 0) (Dy.mk 0 0))], [(K.mk (Dy.mk 1 0) (Dy.mk 0 0) (Dy.mk 0 0) (Dy.mk 0 0))], [(K.mk (Dy.mk 1 0) (Dy.mk 0 0) (Dy.mk 0 0) (Dy.mk 0 0))], [(K.mk (Dy.mk 1 0) (Dy.mk 0 0) (Dy.mk 0 0) (Dy.mk 0 0))], [(K.mk (Dy.mk (-1) 0) (Dy.mk 0 0) (Dy.mk 0 0) (Dy.mk 0 0))], [(K.mk (Dy.mk (-1) 0) (Dy.mk 0 0) (Dy.mk 0 0) (Dy.mk 0 0))], [(K.mk (Dy.mk (-1) 0) (Dy.mk 0 0) (Dy.mk 0 0) (Dy.mk 0 0))], [(K.mk (Dy.mk (-1) 0) (Dy.mk 0 0) (Dy.mk 0 0) (Dy.mk 0 0))], [(K.mk (Dy.mk 0 0) (Dy.mk 0 0) (Dy.mk 0 0) (Dy.mk 0 0))], [(K.mk (Dy.mk 0 0) (Dy.mk 0 0) (Dy.mk 0 0) (Dy.mk 0 0))], [(K.mk (Dy.mk 0 0) (Dy.mk 0 0) (Dy.mk 0 0) (Dy.mk 0 0))], [(K.mk (Dy.mk 0 0) (Dy.mk 0 0) (Dy.mk 0 0) (Dy.mk 0 0))], [(K.mk (Dy.mk 0 0) (Dy.mk 0 0) (Dy.mk 0 0) (Dy.mk 0 0))], [(K.mk (Dy.mk 0 0) (Dy.mk 0 0) (Dy.mk 0 0) (Dy.mk 0 0))], [(K.mk (Dy.mk 0 0) (Dy.mk 0 0) (Dy.mk 0 0) (Dy.mk 0 0))], [(K.mk (Dy.mk 0 0) (Dy.mk 0 0) (Dy.mk 0 0) (Dy.mk 0 0))], [(K.mk (Dy.mk 1 0) (Dy.mk 0 0) (Dy.mk 0 0) (Dy.mk 0 0))], [(K.mk (Dy.mk 0 0) (Dy.mk 0 0) (Dy.mk 0 0) (Dy.mk 0 0))], [(K.mk (Dy.mk 0 0) (Dy.mk 0 0) (Dy.mk 0 0) (Dy.mk 0 0))], [(K.mk (Dy.mk 1 0) (Dy.mk 0 0) (Dy.mk 0 0) (Dy.mk 0 0))]]

/-- Stage check: the transform itself (graph manipulation and configuration
expansion) on `exC1`. -/
theorem exC1cut : cut_circuit exC1 = Except.ok (exC1tapes, exC1pd) := by decide

/-- Stage check: exact simulation of the 24 configuration tapes of `exC1`. -/
theorem exC1sim : exC1tapes.map simulate = exC1results := by decide

/-- Stage check: post-processing the exact results of `exC1` yields `1`. -/
theorem exC1contract :
    contract exC1results exC1pd.shapes exC1pd.communication_graph
      exC1pd.prepare_nodes exC1pd.measure_nodes = Except.ok 1 := by decide

/-- C1: the claim asserts that for every tape the full cut-circuit pipeline
(fragment, expand, evaluate exactly, assemble, contract) reproduces the
expectation value of the uncut tape.  The code violates this: on `exC1`
(direct value `⟨Z₀⟩ = -1`) the pipeline returns `+1`, because the
change-of-basis loop in `_get_tensors` reverses the prepare-axis order
(each `tensordot` prepends the transformed axis) while `_contract_tensors`
assigns einsum symbols in `prepare_nodes` order, so the two cut channels are
swapped wherever a fragment has two or more prepare endpoints. -/
theorem claim_C1_pipeline_not_equivalent :
    pipelineValue exC1 = Except.ok 1 ∧ directValue exC1 = -1 ∧ (1 : K) ≠ -1 := by
  refine ⟨?_, by decide, by decide⟩
  unfold pipelineValue
  rw [exC1cut]
  show contract (exC1tapes.map simulate) exC1pd.shapes exC1pd.communication_graph
    exC1pd.prepare_nodes exC1pd.measure_nodes = Except.ok 1
  rw [exC1sim]
  exact exC1contract

/-- C10: `tape_to_graph` on a tape with an empty operations list fails with
the unbound-`order` `NameError` (the measurement counter is initialised from
the operations loop variable), regardless of the measurements present. -/
theorem claim_C10_empty_ops_name_error (t : Tape) (fresh : ℕ) (h : t.ops = []) :
    tape_to_graph t fresh = Except.error "NameError: name order is not defined" := by
  unfold tape_to_graph
  rw [h]
  rfl

/-- A tape with no operations but one measurement. -/
def exC10 : Tape := ⟨[], [⟨1, NodeKind.measProc RetType.expectation (Obs.single PFactor.fZ 0), [0]⟩]⟩

/-- Witness for C10 at a concrete empty-operations tape with a measurement. -/
theorem claim_C10_witness :
    tape_to_graph exC10 2 = Except.error "NameError: name order is not defined" :=
  claim_C10_empty_ops_name_error exC10 2 rfl

/-- Fragment tape whose user measurement is a tensor observable with a
`PauliZ` factor. -/
def exC3 : Tape :=
  ⟨[⟨1, NodeKind.gate1 SQGate.gX, [0]⟩],
   [⟨2, NodeKind.measProc RetType.expectation (Obs.tensor [(PFactor.fZ, 0)]), [0]⟩]⟩

/-- C3: the claim says tensor observables whose factors are all in
`{I, X, Y, Z}` are accepted.  The source's `isinstance` tuple is
`(Identity, PauliX, PauliY, PauliY)` — `PauliZ` is missing (`PauliY` is
listed twice) — so a tensor containing a `Z` factor is rejected with a hard
error, contradicting the claim (and the spec's §9 note confirms `PauliZ` was
intended). -/
theorem claim_C3_pauli_z_rejected :
    expand_fragment_tapes exC3 = Except.error "Only tensor products of Paulis for now" := by
  decide

/-- Modelled from the spec: §4.6 step 3 applies the change-of-basis matrix
"along each of the first `n_p` axes", leaving axis `k` indexing the `k`-th
prepare node.  This contraction keeps the transformed axis in place, unlike
`np.tensordot`, which prepends it. -/
def tensordotSpecAt (T : TensorK) (i : ℕ) : TensorK :=
  ⟨fun idx =>
    sumFin4 (fun j => K.ofInt (CHANGE_OF_BASIS_MAT (idx.getD i 0) j) * T.entry (idx.set i j))⟩

/-- Modelled from the spec: the per-fragment loop of the §4.6 tensor
assembler with the axis-stable change-of-basis application. -/
def tensorsSpecGo (results : List (List K)) :
    List (ℕ × List Node × List Node) → ℕ → Except String (List TensorK)
| [], _ => Except.ok []
| tr :: rest, ctr => do
  let s := tr.1
  let nPrep := tr.2.1.length
  let nMeas := tr.2.2.length
  let slice := (results.drop ctr).take s
  let T0 ← stackReshape slice (nPrep + nMeas)
  let T1 := T0.scale (K.pow K.invSqrt2 (nMeas + nPrep))
  let T2 := (List.range nPrep).foldl tensordotSpecAt T1
  let ts ← tensorsSpecGo results rest (ctr + s)
  Except.ok (T2 :: ts)

/-- Modelled from the spec: the tensor assembler of §4.6 with the axis-stable
change-of-basis application, as the layout reference for `_get_tensors`. -/
def tensors_spec_layout (results : List (List K)) (shapes : List ℕ)
    (prepare_nodes measure_nodes : List (List Node)) : Except String (List TensorK) :=
  tensorsSpecGo results (shapes.zip (prepare_nodes.zip measure_nodes)) 0

/-- Entry of the first assembled tensor (0 on error). -/
def firstTensorEntry (r : Except String (List TensorK)) (idx : List ℕ) : K :=
  match r with
  | Except.ok ts => (ts.headD ⟨fun _ => 0⟩).entry idx
  | Except.error _ => 0

def exC6p0 : Node := ⟨10, NodeKind.prepareNode PREPARE_SETTINGS, [0]⟩

def exC6p1 : Node := ⟨11, NodeKind.prepareNode PREPARE_SETTINGS, [1]⟩

/-- Fragment results for two prepare endpoints where the configuration
`(p0, p1)` yields the scalar `p0`: the value depends only on the FIRST
prepare node's term choice. -/
def exC6results : List (List K) :=
  (List.range 16).map (fun k => [K.ofInt (((k / 4 : ℕ) : ℤ))])

/-- C6: the claim says axis `k` of the assembled fragment tensor still
indexes the term choice of the `k`-th prepare node after the change-of-basis
loop.  It does not: `np.tensordot` prepends the transformed axis, so after
the loop the prepare axes are in reverse order — the code tensor at `[0, 1]`
is `3`, whereas the spec layout (axis-stable application of `C`) puts `0`
there; the code tensor is the transpose of the spec tensor on the prepare
axes. -/
theorem claim_C6_prepare_axes_reversed :
    firstTensorEntry (_get_tensors exC6results [16] [[exC6p0, exC6p1]] [[]]) [0, 1] = K.ofInt 3
    ∧ firstTensorEntry (tensors_spec_layout exC6results [16] [[exC6p0, exC6p1]] [[]]) [0, 1] = 0
    ∧ firstTensorEntry (_get_tensors exC6results [16] [[exC6p0, exC6p1]] [[]]) [0, 1]
      = firstTensorEntry (tensors_spec_layout exC6results [16] [[exC6p0, exC6p1]] [[]]) [1, 0]
    ∧ K.ofInt 3 ≠ (0 : K) := by
  refine ⟨by decide, by decide, by decide, by decide⟩

/-! ## Helper lemmas on `exceptMapM` and `listProd` -/

theorem exceptMapM_cons {ε α β : Type} (f : α → Except ε β) (a : α) (l : List α)
    (r : List β) (h : exceptMapM f (a :: l) = Except.ok r) :
    ∃ b rest, f a = Except.ok b ∧ exceptMapM f l = Except.ok rest ∧ r = b :: rest := by
  cases hfa : f a with
  | error e => simp [exceptMapM, hfa, Bind.bind, Except.bind] at h
  | ok b =>
    cases hr : exceptMapM f l with
    | error e => simp [exceptMapM, hfa, hr, Bind.bind, Except.bind] at h
    | ok rest =>
      refine ⟨b, rest, rfl, rfl, ?_⟩
      simp [exceptMapM, hfa, hr, Bind.bind, Except.bind] at h
      exact h.symm

theorem exceptMapM_ok_length {ε α β : Type} (f : α → Except ε β) :
    ∀ (l : List α) (r : List β), exceptMapM f l = Except.ok r → r.length = l.length := by
  intro l
  induction l with
  | nil => intro r h; simp [exceptMapM] at h; simp [h.symm]
  | cons a l ih =>
    intro r h
    obtain ⟨b, rest, _, hrest, hr⟩ := exceptMapM_cons f a l r h
    subst hr
    simp [ih rest hrest]

theorem exceptMapM_ok_get {ε α β : Type} (f : α → Except ε β) :
    ∀ (l : List α) (r : List β), exceptMapM f l = Except.ok r →
      ∀ (i : ℕ) (a : α) (b : β), l[i]? = some a → r[i]? = some b → f a = Except.ok b := by
  intro l
  induction l with
  | nil => intro r _ i a b ha; simp at ha
  | cons x l ih =>
    intro r h i a b ha hb
    obtain ⟨b0, rest, hfx, hrest, hr⟩ := exceptMapM_cons f x l r h
    subst hr
    cases i with
    | zero =>
      simp at ha hb
      subst ha; subst hb
      exact hfx
    | succ i =>
      simp at ha hb
      exact ih rest hrest i a b ha hb

theorem exceptMapM_ok_of_forall {ε α β : Type} (f : α → Except ε β) :
    ∀ (l : List α), (∀ a ∈ l, ∃ b, f a = Except.ok b) →
      ∃ r, exceptMapM f l = Except.ok r := by
  intro l
  induction l with
  | nil => exact fun _ => ⟨[], rfl⟩
  | cons a l ih =>
    intro h
    obtain ⟨b, hb⟩ := h a (List.mem_cons_self a l)
    obtain ⟨r, hr⟩ := ih (fun x hx => h x (List.mem_cons_of_mem a hx))
    exact ⟨b :: r, by simp [exceptMapM, hb, hr, Bind.bind, Except.bind]⟩

theorem exceptMapM_mem {ε α β : Type} (f : α → Except ε β) :
    ∀ (l : List α) (r : List β), exceptMapM f l = Except.ok r →
      ∀ b ∈ r, ∃ a ∈ l, f a = Except.ok b := by
  intro l
  induction l with
  | nil => intro r h b hb; simp [exceptMapM] at h; subst h; simp at hb
  | cons x l ih =>
    intro r h b hb
    obtain ⟨b0, rest, hfx, hrest, hr⟩ := exceptMapM_cons f x l r h
    subst hr
    rcases List.mem_cons.mp hb with hb0 | hbr
    · exact ⟨x, List.mem_cons_self x l, hb0 ▸ hfx⟩
    · obtain ⟨a, hal, hfa⟩ := ih rest hrest b hbr
      exact ⟨a, List.mem_cons_of_mem x hal, hfa⟩

theorem sum_map_const_nat {α : Type} (l : List α) (c : ℕ) :
    (l.map (fun _ => c)).sum = l.length * c := by
  induction l with
  | nil => simp
  | cons a l ih => simp [ih, Nat.succ_mul, Nat.add_comm]

/-- The number of tuples in the Cartesian product is the product of the list
lengths. -/
theorem listProd_length {α : Type} :
    ∀ ls : List (List α), (listProd ls).length = (ls.map List.length).prod := by
  intro ls
  induction ls with
  | nil => rfl
  | cons l ls ih =>
    have : (List.length ∘ fun x => List.map (fun xs => x :: xs) (listProd ls)) =
        fun _ => (listProd ls).length := by
      funext x
      simp
    simp only [listProd, List.length_flatMap, List.map_map, this, List.map_cons,
      List.prod_cons, sum_map_const_nat]
    rw [ih]

/-- Indexing the prepare-outer / measure-inner enumeration: entry `i·|r| + j`
of the paired flat product is the pair of entry `i` and entry `j`. -/
theorem flatMap_pair_getElem {α β : Type} (l : List α) (r : List β) :
    ∀ (i j : ℕ) (a : α) (b : β), l[i]? = some a → r[j]? = some b →
      (l.flatMap (fun x => r.map (fun y => (x, y))))[i * r.length + j]? = some (a, b) := by
  induction l with
  | nil => intro i j a b ha; simp at ha
  | cons x l ih =>
    intro i j a b ha hb
    have hj : j < r.length := by
      by_contra hc
      rw [List.getElem?_eq_none (Nat.le_of_not_lt hc)] at hb
      exact Option.noConfusion hb
    cases i with
    | zero =>
      simp only [List.flatMap_cons, Nat.zero_mul, Nat.zero_add]
      rw [List.getElem?_append_left (by simpa using hj), List.getElem?_map, hb]
      simp at ha
      simp [ha]
    | succ i =>
      simp only [List.flatMap_cons]
      have hlen : (r.map (fun y => (x, y))).length = r.length := by simp
      have hge : (r.map (fun y => (x, y))).length ≤ (i + 1) * r.length + j := by
        rw [hlen, Nat.succ_mul]
        omega
      rw [List.getElem?_append_right hge, hlen]
      have harith : (i + 1) * r.length + j - r.length = i * r.length + j := by
        rw [Nat.succ_mul]; omega
      rw [harith]
      simp at ha
      exact ih i j a b ha hb

theorem flatMap_pair_length {α β : Type} (l : List α) (r : List β) :
    (l.flatMap (fun x => r.map (fun y => (x, y)))).length = l.length * r.length := by
  have h : (List.length ∘ fun (x : α) => List.map (fun (y : β) => (x, y)) r)
      = fun (_ : α) => r.length := by
    funext x
    simp
  simp [List.length_flatMap, List.map_map, h, sum_map_const_nat]

/-- C5: `expand_fragment_tapes` returns its prepare and measure nodes in
fragment-tape (operation) order, produces exactly
`∏ |terms(P_i)| · ∏ |terms(M_j)|` configuration tapes, and enumerates them
with the prepare-term tuples outermost and the measure-term tuples innermost:
the tape at flat index `i·M + j` is built from the `i`-th prepare combination
and the `j`-th measure combination. -/
theorem claim_C5_configuration_enumeration (t : Tape) (tapes : List Tape)
    (pn mn : List Node) (h : expand_fragment_tapes t = Except.ok (tapes, pn, mn)) :
    pn = t.ops.filter (fun o => o.kind.isPrepareNode)
    ∧ mn = t.ops.filter (fun o => o.kind.isMeasureNode)
    ∧ tapes.length
      = (pn.map (fun n => n.prepTerms.length)).prod * (mn.map (fun n => n.measTerms.length)).prod
    ∧ ∀ (i j : ℕ) (ps : List (List SQGate)) (ms : List PFactor),
        (listProd (pn.map Node.prepTerms))[i]? = some ps →
        (listProd (mn.map Node.measTerms))[j]? = some ms →
        ∃ tp, tapes[i * (listProd (mn.map Node.measTerms)).length + j]? = some tp
          ∧ buildConfig t pn mn ps ms = Except.ok tp := by
  rw [expand_fragment_tapes] at h
  cases hm : exceptMapM
      (fun c => buildConfig t (t.ops.filter (fun o => o.kind.isPrepareNode))
        (t.ops.filter (fun o => o.kind.isMeasureNode)) c.1 c.2)
      ((listProd ((t.ops.filter (fun o => o.kind.isPrepareNode)).map Node.prepTerms)).flatMap
        (fun ps => (listProd ((t.ops.filter (fun o => o.kind.isMeasureNode)).map Node.measTerms)).map
          (fun ms => (ps, ms)))) with
  | error e =>
    rw [hm] at h
    simp [Bind.bind, Except.bind] at h
  | ok r =>
    rw [hm] at h
    simp only [Bind.bind, Except.bind, Except.ok.injEq, Prod.mk.injEq] at h
    obtain ⟨htapes, hpn, hmn⟩ := h
    subst hpn
    subst hmn
    subst htapes
    refine ⟨rfl, rfl, ?_, ?_⟩
    · rw [exceptMapM_ok_length _ _ _ hm, flatMap_pair_length, listProd_length, listProd_length]
      rw [List.map_map, List.map_map]
      rfl
    · intro i j ps ms hps hms
      have hcombo := flatMap_pair_getElem _ _ i j ps ms hps hms
      have hlen := exceptMapM_ok_length _ _ _ hm
      have hi : i < (listProd ((t.ops.filter (fun o => o.kind.isPrepareNode)).map Node.prepTerms)).length := by
        by_contra hc
        rw [List.getElem?_eq_none (Nat.le_of_not_lt hc)] at hps
        exact Option.noConfusion hps
      have hj : j < (listProd ((t.ops.filter (fun o => o.kind.isMeasureNode)).map Node.measTerms)).length := by
        by_contra hc
        rw [List.getElem?_eq_none (Nat.le_of_not_lt hc)] at hms
        exact Option.noConfusion hms
      have hidx : i * (listProd ((t.ops.filter (fun o => o.kind.isMeasureNode)).map Node.measTerms)).length + j
          < r.length := by
        rw [hlen, flatMap_pair_length]
        calc i * (listProd ((t.ops.filter (fun o => o.kind.isMeasureNode)).map Node.measTerms)).length + j
            < (i + 1) * (listProd ((t.ops.filter (fun o => o.kind.isMeasureNode)).map Node.measTerms)).length := by
              rw [Nat.succ_mul]
              omega
          _ ≤ _ := Nat.mul_le_mul_right _ hi
      have hget := List.getElem?_eq_getElem hidx
      exact ⟨_, hget, exceptMapM_ok_get _ _ _ hm _ _ _ hcombo hget⟩

/-- A fragment tape with one simple `PrepareNode` and one simple
`MeasureNode`. -/
def exC5 : Tape :=
  ⟨[⟨1, NodeKind.prepareNode PREPARE_SETTINGS, [0]⟩,
    ⟨2, NodeKind.measureNode MEASURE_SETTINGS, [0]⟩], []⟩

def exC5tapes : List Tape :=
  match expand_fragment_tapes exC5 with
  | Except.ok (ts, _, _) => ts
  | Except.error _ => []

def exC5pn : List Node :=
  match expand_fragment_tapes exC5 with
  | Except.ok (_, pn, _) => pn
  | Except.error _ => []

def exC5mn : List Node :=
  match expand_fragment_tapes exC5 with
  | Except.ok (_, _, mn) => mn
  | Except.error _ => []

/-- Witness for C5: one simple prepare and one simple measure endpoint give
`4 · 4 = 16` configuration tapes. -/
theorem claim_C5_witness :
    expand_fragment_tapes exC5 = Except.ok (exC5tapes, exC5pn, exC5mn)
    ∧ exC5tapes.length
      = (exC5pn.map (fun n => n.prepTerms.length)).prod * (exC5mn.map (fun n => n.measTerms.length)).prod
    ∧ exC5tapes.length = 16 :=
  ⟨by decide,
   (claim_C5_configuration_enumeration exC5 exC5tapes exC5pn exC5mn (by decide)).2.2.1,
   by decide⟩

/-- A user measurement the expander's checks accept: expectation return type
with a single Pauli in `{I, X, Y, Z}` or a tensor of factors in the set the
source's tensor branch admits. -/
def supportedMeasurement (m : Node) : Bool :=
  match m.kind with
  | NodeKind.measProc RetType.expectation (Obs.single p _) => singleFactorOk p
  | NodeKind.measProc RetType.expectation (Obs.tensor fs) => fs.all (fun f => tensorFactorOk f.1)
  | _ => false

theorem rewriteMeasurement_ok (opT : List (PFactor × ℕ)) (m : Node)
    (h : supportedMeasurement m = true) :
    ∃ n, rewriteMeasurement opT m = Except.ok n := by
  cases m with
  | mk mid kind wires =>
    cases kind with
    | measProc r obs =>
      cases r with
      | expectation =>
        cases obs with
        | single p w =>
          simp only [supportedMeasurement] at h
          refine ⟨mergedMeasurement opT [(p, w)], ?_⟩
          simp [rewriteMeasurement, h]
        | tensor fs =>
          simp only [supportedMeasurement] at h
          refine ⟨mergedMeasurement opT fs, ?_⟩
          simp only [rewriteMeasurement]
          rw [if_neg]
          · rw [if_neg]
            simp only [List.any_eq_true, not_exists, not_and]
            intro f hf
            simp [List.all_eq_true.mp h f hf]
          · simp
      | sample => simp [supportedMeasurement] at h
    | gate1 g => simp [supportedMeasurement] at h
    | cnot => simp [supportedMeasurement] at h
    | wireCut => simp [supportedMeasurement] at h
    | measureNode ts => simp [supportedMeasurement] at h
    | prepareNode ts => simp [supportedMeasurement] at h

theorem buildMeas_ok {l : List Node} (hsupp : ∀ m ∈ l, supportedMeasurement m = true)
    (opT : List (PFactor × ℕ)) (ops' : List Node) :
    ∃ tp, (do
        let nm ← exceptMapM (rewriteMeasurement opT) l
        Except.ok (Tape.mk ops' nm)) = Except.ok tp ∧ tp.meas.length = l.length := by
  obtain ⟨r, hr⟩ := exceptMapM_ok_of_forall _ l (fun m hm => rewriteMeasurement_ok opT m (hsupp m hm))
  refine ⟨⟨ops', r⟩, ?_, exceptMapM_ok_length _ _ _ hr⟩
  rw [hr]
  rfl

theorem buildConfig_meas_ok (t : Tape) (pn mn : List Node) (ps : List (List SQGate))
    (ms : List PFactor) (m0 : Node) (ms0 : List Node) (hm : t.meas = m0 :: ms0)
    (hsupp : ∀ m ∈ t.meas, supportedMeasurement m = true) :
    ∃ tp, buildConfig t pn mn ps ms = Except.ok tp ∧ tp.meas.length = t.meas.length := by
  simp only [buildConfig]
  rw [hm]
  rw [hm] at hsupp
  exact buildMeas_ok hsupp _ _

/-- C4 (amended): the configuration expander raises no error for a fragment
tape with two or more user measurements of the supported shape; it emits one
terminal measurement per user measurement in every configuration tape.  (The
unsupportedness of multiple measurements only surfaces downstream, when
`contract` rejects a first result of length greater than one.) -/
theorem claim_C4_multiple_measurements_no_error (t : Tape)
    (h1 : ∀ m ∈ t.meas, supportedMeasurement m = true) (h2 : 2 ≤ t.meas.length) :
    ∃ tapes pn mn, expand_fragment_tapes t = Except.ok (tapes, pn, mn)
      ∧ ∀ tp ∈ tapes, tp.meas.length = t.meas.length := by
  obtain ⟨m0, ms0, hm⟩ : ∃ m0 ms0, t.meas = m0 :: ms0 := by
    cases hc : t.meas with
    | nil => rw [hc] at h2; simp at h2
    | cons a l => exact ⟨a, l, rfl⟩
  have hbuild : ∀ (c : List (List SQGate) × List PFactor),
      ∃ tp, buildConfig t (t.ops.filter (fun o => o.kind.isPrepareNode))
        (t.ops.filter (fun o => o.kind.isMeasureNode)) c.1 c.2 = Except.ok tp
        ∧ tp.meas.length = t.meas.length :=
    fun c => buildConfig_meas_ok t _ _ c.1 c.2 m0 ms0 hm h1
  obtain ⟨tapes, htapes⟩ := exceptMapM_ok_of_forall
    (fun c => buildConfig t (t.ops.filter (fun o => o.kind.isPrepareNode))
      (t.ops.filter (fun o => o.kind.isMeasureNode)) c.1 c.2)
    ((listProd ((t.ops.filter (fun o => o.kind.isPrepareNode)).map Node.prepTerms)).flatMap
      (fun ps => (listProd ((t.ops.filter (fun o => o.kind.isMeasureNode)).map Node.measTerms)).map
        (fun msc => (ps, msc))))
    (fun c _ => (hbuild c).imp (fun _ h => h.1))
  refine ⟨tapes, t.ops.filter (fun o => o.kind.isPrepareNode),
    t.ops.filter (fun o => o.kind.isMeasureNode), ?_, ?_⟩
  · rw [expand_fragment_tapes, htapes]
    rfl
  · intro tp htp
    obtain ⟨c, _, hc⟩ := exceptMapM_mem _ _ _ htapes tp htp
    obtain ⟨tp', htp', hlen⟩ := hbuild c
    rw [hc] at htp'
    rw [Except.ok.inj htp']
    exact hlen

/-- Fragment tape with two expectation measurements of single Paulis. -/
def exC4 : Tape :=
  ⟨[⟨1, NodeKind.gate1 SQGate.gX, [0]⟩],
   [⟨2, NodeKind.measProc RetType.expectation (Obs.single PFactor.fZ 0), [0]⟩,
    ⟨3, NodeKind.measProc RetType.expectation (Obs.single PFactor.fX 0), [0]⟩]⟩

def exC4tapes : List Tape :=
  match expand_fragment_tapes exC4 with
  | Except.ok (ts, _, _) => ts
  | Except.error _ => []

/-- Counterexample to C4 as stated: a fragment tape with two user
measurements expands WITHOUT an error — the claimed hard error does not
exist; the single configuration tape carries both measurements. -/
theorem claim_C4_counterexample :
    expand_fragment_tapes exC4 = Except.ok (exC4tapes, [], [])
    ∧ exC4.meas.length = 2
    ∧ exC4tapes.map (fun tp => tp.meas.length) = [2] := by
  refine ⟨by decide, by decide, by decide⟩

/-- Witness for the amended C4 at the concrete two-measurement tape. -/
theorem claim_C4_witness :
    ∃ tapes pn mn, expand_fragment_tapes exC4 = Except.ok (tapes, pn, mn)
      ∧ ∀ tp ∈ tapes, tp.meas.length = exC4.meas.length :=
  claim_C4_multiple_measurements_no_error exC4 (by decide) (by decide)

/-- C7 (amended): after `fragment_graph` removes the measure→prepare cut
edges, no fragment subgraph contains any edge leaving a `MeasureNode` — in
particular no fragment contains a cut edge.  (Both ENDPOINTS of a cut can
still land in one fragment when another wire connects them; see the
counterexample.) -/
theorem claim_C7_no_cut_edge_in_fragment (g : Graph) (frags : List Graph)
    (cg : CommGraph) (h : fragment_graph g = Except.ok (frags, cg)) :
    ∀ f ∈ frags, ∀ e ∈ f.edges, e.src.kind.isMeasureNode = false := by
  rw [fragment_graph] at h
  by_cases hassert : (g.edges.filter (fun e => e.src.kind.isMeasureNode)).any
      (fun e => ¬ e.dst.kind.isPrepareNode)
  · rw [if_pos hassert] at h
    exact Except.noConfusion h
  · rw [if_neg hassert] at h
    simp only [Except.ok.injEq, Prod.mk.injEq] at h
    obtain ⟨hfrags, _⟩ := h
    intro f hf e he
    rw [← hfrags] at hf
    obtain ⟨c, _, hsub⟩ := List.mem_map.mp hf
    rw [← hsub] at he
    have hres := (List.mem_filter.mp he).1
    have := (List.mem_filter.mp hres).2
    simpa using this

/-- The tape `CNOT(0,1); WireCut(0); CNOT(0,1); expval(Z(0))`: the cut on
wire 0 does not disconnect the circuit, because wire 1 still joins the two
CNOTs. -/
def exC7 : Tape :=
  ⟨[⟨1, NodeKind.cnot, [0, 1]⟩,
    ⟨2, NodeKind.wireCut, [0]⟩,
    ⟨3, NodeKind.cnot, [0, 1]⟩],
   [⟨4, NodeKind.measProc RetType.expectation (Obs.single PFactor.fZ 0), [0]⟩]⟩

/-- The cuts-expanded graph of `exC7` (wire cut replaced by the
measure/prepare pair with ids 5 and 6). -/
def exC7graph : Graph :=
  match tape_to_graph exC7 (freshBase exC7) with
  | Except.ok (g, fresh) => (remove_wire_cut_nodes g fresh).1
  | Except.error _ => ⟨[], []⟩

def exC7frags : List Graph :=
  match fragment_graph exC7graph with
  | Except.ok (frags, _) => frags
  | Except.error _ => []

def exC7comm : CommGraph :=
  match fragment_graph exC7graph with
  | Except.ok (_, cg) => cg
  | Except.error _ => ⟨0, []⟩

/-- Counterexample to C7 as stated: on `exC7graph` fragmentation yields a
single fragment that contains BOTH endpoints of the cut (the `MeasureNode`
with id 5 and the `PrepareNode` with id 6, recorded as the pair of the sole
communication-graph edge). -/
theorem claim_C7_counterexample :
    fragment_graph exC7graph = Except.ok (exC7frags, exC7comm)
    ∧ exC7comm.edges.map (fun e => (e.1, e.2.1, e.2.2.1.id, e.2.2.2.id)) = [(0, 0, 5, 6)]
    ∧ (exC7frags.headD ⟨[], []⟩).hasNodeId 5 = true
    ∧ (exC7frags.headD ⟨[], []⟩).hasNodeId 6 = true := by
  refine ⟨by decide, by decide, by decide, by decide⟩

/-- Witness for the amended C7 at the concrete graph `exC7graph`: the first
edge of its sole fragment does not leave a `MeasureNode`. -/
theorem claim_C7_witness :
    ((exC7frags.headD ⟨[], []⟩).edges.headD
      ⟨⟨0, NodeKind.cnot, []⟩, ⟨0, NodeKind.cnot, []⟩, 0⟩).src.kind.isMeasureNode = false :=
  claim_C7_no_cut_edge_in_fragment exC7graph exC7frags exC7comm (by decide)
    (exC7frags.headD ⟨[], []⟩) (by decide)
    ((exC7frags.headD ⟨[], []⟩).edges.headD
      ⟨⟨0, NodeKind.cnot, []⟩, ⟨0, NodeKind.cnot, []⟩, 0⟩) (by decide)

theorem alistGetD_self (l : List (ℕ × ℕ)) (hid : ∀ kv ∈ l, kv.2 = kv.1) (x : ℕ) :
    alistGetD l x x = x := by
  induction l with
  | nil => rfl
  | cons kv l ih =>
    rw [alistGetD]
    by_cases hk : kv.1 = x
    · rw [if_pos hk]
      rw [hid kv (List.mem_cons_self kv l), hk]
    · rw [if_neg hk]
      exact ih (fun x hx => hid x (List.mem_cons_of_mem kv hx))

theorem lowerStep_no_measure (st : LowerState) (nd : Node)
    (hA : nd.kind.isMeasureNode = false)
    (hB : ∀ kv ∈ st.wireMap, kv.2 = kv.1) :
    lowerStep st nd = ⟨st.wireMap, st.wires,
      (if nd.kind.isMeasProc then st.ops else st.ops ++ [nd]),
      (if nd.kind.isMeasProc then st.meas ++ [nd] else st.meas),
      st.updated ++ [nd]⟩ := by
  have hid : ∀ w, alistGetD st.wireMap w w = w := alistGetD_self st.wireMap hB
  have hw : nd.wires.map (fun w => alistGetD st.wireMap w w) = nd.wires := by
    simp [hid]
  simp only [lowerStep, hw, hA, Bool.false_eq_true, if_false]
  by_cases hp : nd.kind.isMeasProc
  · simp [hp]
  · simp [hp]

theorem lower_no_measure (nds : List Node) :
    ∀ st : LowerState, (∀ nd ∈ nds, nd.kind.isMeasureNode = false) →
      (∀ kv ∈ st.wireMap, kv.2 = kv.1) →
      (nds.foldl lowerStep st).updated = st.updated ++ nds := by
  induction nds with
  | nil => intro st _ _; simp
  | cons nd nds ih =>
    intro st hA hB
    rw [List.foldl_cons,
      lowerStep_no_measure st nd (hA nd (List.mem_cons_self nd nds)) hB]
    by_cases hp : nd.kind.isMeasProc
    · simp only [hp, if_true]
      rw [ih ⟨st.wireMap, st.wires, st.ops, st.meas ++ [nd], st.updated ++ [nd]⟩
        (fun x hx => hA x (List.mem_cons_of_mem nd hx)) hB]
      simp
    · simp only [hp, Bool.false_eq_true, if_false]
      rw [ih ⟨st.wireMap, st.wires, st.ops ++ [nd], st.meas, st.updated ++ [nd]⟩
        (fun x hx => hA x (List.mem_cons_of_mem nd hx)) hB]
      simp

/-- C9 (amended): `graph_to_tape` leaves every node value unchanged whenever
the fragment contains no `MeasureNode`: the post-mutation node values are
exactly the original nodes (in sorted order).  When a `MeasureNode` IS
present, operators after it on the measured wire — including `PrepareNode`
objects shared with the communication-graph edge pairs — are destructively
rewired (see the counterexample). -/
theorem claim_C9_no_measure_preserves_wires (g : Graph)
    (h : ∀ nd ∈ g.nodes, nd.1.kind.isMeasureNode = false) :
    (graph_to_tape g).2 = (List.insertionSort (fun a b => Dy.Le a.2 b.2) g.nodes).map Prod.fst := by
  have hA : ∀ nd ∈ (List.insertionSort (fun a b => Dy.Le a.2 b.2) g.nodes).map Prod.fst,
      nd.kind.isMeasureNode = false := by
    intro nd hnd
    obtain ⟨p, hp, hfst⟩ := List.mem_map.mp hnd
    have hmem : p ∈ g.nodes := (List.Perm.mem_iff (List.perm_insertionSort _ g.nodes)).mp hp
    rw [← hfst]
    exact h p hmem
  have hB : ∀ kv ∈ (dedupFirst ((g.nodes.map (fun nd => nd.1.wires)).flatten)).map
      (fun w => (w, w)), (kv : ℕ × ℕ).2 = kv.1 := by
    intro kv hkv
    obtain ⟨w, _, hw⟩ := List.mem_map.mp hkv
    rw [← hw]
  have h2 := lower_no_measure
    ((List.insertionSort (fun a b => Dy.Le a.2 b.2) g.nodes).map Prod.fst)
    ⟨(dedupFirst ((g.nodes.map (fun nd => nd.1.wires)).flatten)).map (fun w => (w, w)),
     dedupFirst ((g.nodes.map (fun nd => nd.1.wires)).flatten), [], [], []⟩ hA hB
  rw [List.nil_append] at h2
  exact h2

/-- Counterexample to C9 as stated: in the single fragment of `exC7graph`,
lowering rewrites the `PrepareNode` (id 6) from wire `[0]` to the fresh wire
`[2]` — the same object that the communication-graph edge pair references. -/
theorem claim_C9_counterexample :
    (∃ nd ∈ (exC7frags.headD ⟨[], []⟩).nodes,
      nd.1.id = 6 ∧ nd.1.kind.isPrepareNode = true ∧ nd.1.wires = [0])
    ∧ (∃ n ∈ (graph_to_tape (exC7frags.headD ⟨[], []⟩)).2, n.id = 6 ∧ n.wires = [2])
    ∧ (∃ e ∈ exC7comm.edges, e.2.2.2.id = 6 ∧ e.2.2.2.wires = [0]) := by
  refine ⟨by decide, by decide, by decide⟩

/-- A measure-free two-gate fragment graph. -/
def exC9w : Graph :=
  ⟨[(⟨1, NodeKind.gate1 SQGate.gH, [0]⟩, Dy.ofInt 0), (⟨2, NodeKind.cnot, [0, 1]⟩, Dy.ofInt 1)],
   [⟨⟨1, NodeKind.gate1 SQGate.gH, [0]⟩, ⟨2, NodeKind.cnot, [0, 1]⟩, 0⟩]⟩

/-- Witness for the amended C9 on a measure-free fragment graph. -/
theorem claim_C9_witness :
    (graph_to_tape exC9w).2
      = (List.insertionSort (fun a b => Dy.Le a.2 b.2) exC9w.nodes).map Prod.fst :=
  claim_C9_no_measure_preserves_wires exC9w (by decide)

/-- The error messages `stackReshape` can produce. -/
def isStackMsg (e : String) : Prop :=
  e = "ValueError: need at least one array to stack"
  ∨ e = "ValueError: all input arrays must have the same shape"
  ∨ e = "ValueError: cannot reshape array"

theorem stackReshape_error (slice : List (List K)) (n : ℕ) (e : String)
    (h : stackReshape slice n = Except.error e) : isStackMsg e := by
  cases slice with
  | nil =>
    rw [stackReshape] at h
    exact Or.inl (Except.error.inj h).symm
  | cons r0 rest =>
    rw [stackReshape] at h
    by_cases h1 : rest.any (fun r => r.length ≠ r0.length)
    · rw [if_pos h1] at h
      exact Or.inr (Or.inl (Except.error.inj h).symm)
    · rw [if_neg h1] at h
      by_cases h2 : (r0 :: rest).length * r0.length ≠ 4 ^ n
      · rw [if_pos h2] at h
        exact Or.inr (Or.inr (Except.error.inj h).symm)
      · rw [if_neg h2] at h
        exact Except.noConfusion h

theorem getTensorsGo_error (results : List (List K)) :
    ∀ (triples : List (ℕ × List Node × List Node)) (ctr : ℕ) (e : String),
      getTensorsGo results triples ctr = Except.error e → isStackMsg e := by
  intro triples
  induction triples with
  | nil => intro ctr e h; exact Except.noConfusion h
  | cons tr rest ih =>
    intro ctr e h
    rw [getTensorsGo] at h
    cases hsr : stackReshape ((results.drop ctr).take tr.1) (tr.2.1.length + tr.2.2.length) with
    | error e0 =>
      rw [hsr] at h
      simp only [Bind.bind, Except.bind] at h
      cases h
      exact stackReshape_error _ _ _ hsr
    | ok T0 =>
      rw [hsr] at h
      simp only [Bind.bind, Except.bind] at h
      cases hrec : getTensorsGo results rest (ctr + tr.1) with
      | error e1 =>
        rw [hrec] at h
        simp only [Except.bind] at h
        cases h
        exact ih _ _ hrec
      | ok ts =>
        rw [hrec] at h
        simp [Except.bind] at h

theorem stackReshape_ok (slice : List (List K)) (n : ℕ) (hne : slice ≠ [])
    (h1 : ∀ r ∈ slice, r.length = 1) (hlen : slice.length = 4 ^ n) :
    ∃ T, stackReshape slice n = Except.ok T := by
  cases slice with
  | nil => exact absurd rfl hne
  | cons r0 rest =>
    have hr0 : r0.length = 1 := h1 r0 (List.mem_cons_self r0 rest)
    have hany : rest.any (fun r => r.length ≠ r0.length) = false := by
      simp only [List.any_eq_false, decide_not]
      intro r hr
      simp [h1 r (List.mem_cons_of_mem r0 hr), hr0]
    have hsz : ¬ ((r0 :: rest).length * r0.length ≠ 4 ^ n) := by
      rw [hr0, Nat.mul_one, hlen]
      exact fun hc => hc rfl
    refine ⟨⟨fun idx => ((r0 :: rest).flatten).getD (flatIndex idx) 0⟩, ?_⟩
    rw [stackReshape, hany]
    simp only [Bool.false_eq_true, if_false]
    rw [if_neg hsz]

theorem getTensorsGo_ok (results : List (List K)) (hall : ∀ r ∈ results, r.length = 1) :
    ∀ (triples : List (ℕ × List Node × List Node)) (ctr : ℕ),
      (∀ tr ∈ triples, tr.1 = 4 ^ (tr.2.1.length + tr.2.2.length)) →
      ctr + (triples.map (fun tr => tr.1)).sum ≤ results.length →
      ∃ ts, getTensorsGo results triples ctr = Except.ok ts := by
  intro triples
  induction triples with
  | nil => intro ctr _ _; exact ⟨[], rfl⟩
  | cons tr rest ih =>
    intro ctr hshape hbound
    have hs : tr.1 = 4 ^ (tr.2.1.length + tr.2.2.length) :=
      hshape tr (List.mem_cons_self tr rest)
    have hspos : 1 ≤ tr.1 := by
      rw [hs]
      exact Nat.one_le_two_pow.trans (Nat.pow_le_pow_left (by omega) _)
    have hsum : ctr + tr.1 + (rest.map (fun tr => tr.1)).sum ≤ results.length := by
      simp only [List.map_cons, List.sum_cons] at hbound
      omega
    have hslicelen : ((results.drop ctr).take tr.1).length = tr.1 := by
      rw [List.length_take, List.length_drop]
      omega
    have hne : (results.drop ctr).take tr.1 ≠ [] := by
      intro hc
      rw [hc] at hslicelen
      simp at hslicelen
      omega
    obtain ⟨T0, hT0⟩ := stackReshape_ok ((results.drop ctr).take tr.1)
      (tr.2.1.length + tr.2.2.length) hne
      (fun r hr => hall r (List.mem_of_mem_drop (List.mem_of_mem_take hr)))
      (by rw [hslicelen, hs])
    obtain ⟨ts, hts⟩ := ih (ctr + tr.1) (fun x hx => hshape x (List.mem_cons_of_mem tr hx)) hsum
    refine ⟨((List.range tr.2.1.length).foldl tensordotC
      (T0.scale (K.pow K.invSqrt2 (tr.2.2.length + tr.2.1.length)))) :: ts, ?_⟩
    rw [getTensorsGo, hT0]
    simp only [Bind.bind, Except.bind]
    rw [hts]

/-- C8 (amended): `contract`'s explicit arity error fires exactly when the
FIRST result's length exceeds 1 — results beyond the first are not checked by
it.  Conversely, when every result has length exactly 1, the shapes are the
per-fragment configuration counts `4^(n_p+n_m)`, and the results cover the
consumed prefix, contract proceeds to contraction and returns a value. -/
theorem claim_C8_arity_check (r : List K) (rest : List (List K)) (shapes : List ℕ)
    (cg : CommGraph) (pn mn : List (List Node)) :
    (contract (r :: rest) shapes cg pn mn
        = Except.error "Only supporting returning a single expectation for now"
      ↔ 1 < r.length)
    ∧ ((∀ x ∈ r :: rest, List.length x = 1) →
       (∀ tr ∈ shapes.zip (pn.zip mn), tr.1 = 4 ^ (tr.2.1.length + tr.2.2.length)) →
       ((shapes.zip (pn.zip mn)).map (fun tr => tr.1)).sum ≤ (r :: rest).length →
       ∃ v, contract (r :: rest) shapes cg pn mn = Except.ok v) := by
  constructor
  · constructor
    · intro h
      by_contra hlen
      rw [contract, if_neg hlen] at h
      cases hgt : _get_tensors (r :: rest) shapes pn mn with
      | error e =>
        rw [hgt] at h
        simp only [Bind.bind, Except.bind] at h
        cases h
        have hmsg := getTensorsGo_error (r :: rest) _ _ _ hgt
        rcases hmsg with h1 | h1 | h1 <;> exact absurd h1 (by decide)
      | ok ts =>
        rw [hgt] at h
        simp [Bind.bind, Except.bind] at h
    · intro h
      rw [contract, if_pos h]
  · intro hall hshape hbound
    have hr1 : r.length = 1 := hall r (List.mem_cons_self r rest)
    have hnot : ¬ 1 < r.length := by omega
    obtain ⟨ts, hts⟩ := getTensorsGo_ok (r :: rest) hall (shapes.zip (pn.zip mn)) 0
      hshape (by simpa using hbound)
    refine ⟨_contract_tensors ts cg pn mn, ?_⟩
    rw [contract, if_neg hnot]
    show (do
      let tensors ← _get_tensors (r :: rest) shapes pn mn
      Except.ok (_contract_tensors tensors cg pn mn)) = _
    rw [_get_tensors, hts]
    rfl

/-- Counterexample to C8 as stated: a results list whose SECOND entry has
length 2 passes `contract` without any error (the explicit check reads only
`results[0]`, and the numpy-shape checks never touch results beyond
`sum(shapes)`), even though the claim demands a hard error for any result of
length different from 1. -/
theorem claim_C8_counterexample :
    contract [[(1 : K)], [1, 1]] [1] ⟨1, []⟩ [[]] [[]] = Except.ok 1
    ∧ ([[(1 : K)], [1, 1]] : List (List K)).map List.length = [1, 2] := by
  refine ⟨by decide, by decide⟩

/-- Witness for the amended C8 at a concrete single-fragment call. -/
theorem claim_C8_witness :
    ∃ v, contract [[(1 : K)]] [1] ⟨1, []⟩ [[]] [[]] = Except.ok v :=
  (claim_C8_arity_check [(1 : K)] [] [1] ⟨1, []⟩ [[]] [[]]).2
    (by decide) (by decide) (by decide)

/-! ## Normal-form arithmetic lemmas for the identity post-processor -/

theorem Dy.normGo_zero : ∀ e : ℕ, Dy.normGo 0 e = ⟨0, 0⟩ := by
  intro e
  induction e with
  | zero => rfl
  | succ e ih =>
    rw [Dy.normGo]
    rw [if_pos (by decide)]
    have hz : (0 : ℤ) / 2 = 0 := by decide
    rw [hz]
    exact ih

theorem Dy.norm_eq_self (d : Dy) (h : d.Normalized) : Dy.norm d = d := by
  obtain ⟨n, e⟩ := d
  cases e with
  | zero => rfl
  | succ e =>
    rcases h with h0 | hodd
    · exact absurd h0 (by simp)
    · rw [Dy.norm, Dy.normGo, if_neg hodd]

theorem Dy.mul_one_left (d : Dy) (h : d.Normalized) : Dy.mul 1 d = d := by
  obtain ⟨n, e⟩ := d
  show Dy.norm ⟨1 * n, 0 + e⟩ = _
  rw [Int.one_mul, Nat.zero_add]
  exact Dy.norm_eq_self ⟨n, e⟩ h

theorem Dy.mul_zero_left (d : Dy) : Dy.mul 0 d = 0 := by
  obtain ⟨n, e⟩ := d
  show Dy.norm ⟨0 * n, 0 + e⟩ = _
  rw [Int.zero_mul, Nat.zero_add]
  exact Dy.normGo_zero e

theorem Dy.mul_zero_right (d : Dy) : Dy.mul d 0 = 0 := by
  obtain ⟨n, e⟩ := d
  show Dy.norm ⟨n * 0, e + 0⟩ = _
  rw [Int.mul_zero]
  exact Dy.normGo_zero e

theorem Dy.add_zero_right (d : Dy) (h : d.Normalized) : Dy.add d 0 = d := by
  obtain ⟨n, e⟩ := d
  show Dy.norm ⟨n * 2 ^ 0 + 0 * 2 ^ e, e + 0⟩ = _
  rw [pow_zero, Int.mul_one, Int.zero_mul, Int.add_zero]
  exact Dy.norm_eq_self ⟨n, e⟩ h

theorem Dy.neg_zero_eq : Dy.neg 0 = 0 := rfl

theorem Dy.sub_zero_right (d : Dy) (h : d.Normalized) : Dy.sub d 0 = d := by
  rw [Dy.sub, Dy.neg_zero_eq]
  exact Dy.add_zero_right d h

theorem Dy.normalized_zero : (0 : Dy).Normalized := Or.inl rfl

theorem K.one_mul_norm (x : K) (hx : x.Normalized) : (1 : K) * x = x := by
  obtain ⟨a, b, c, d⟩ := x
  obtain ⟨h1, h2, h3, h4⟩ := hx
  show K.mul ⟨1, 0, 0, 0⟩ ⟨a, b, c, d⟩ = _
  simp only [K.mul, K.mulR]
  rw [Dy.mul_one_left a h1, Dy.mul_one_left b h2, Dy.mul_one_left c h3, Dy.mul_one_left d h4]
  rw [Dy.mul_zero_left a, Dy.mul_zero_left b, Dy.mul_zero_left c, Dy.mul_zero_left d]
  rw [Dy.mul_zero_right (Dy.ofInt 2)]
  rw [Dy.add_zero_right a h1, Dy.add_zero_right b h2, Dy.add_zero_right c h3,
    Dy.add_zero_right d h4]
  rw [Dy.add_zero_right 0 Dy.normalized_zero]
  rw [Dy.sub_zero_right a h1, Dy.sub_zero_right b h2]
  rw [Dy.add_zero_right c h3, Dy.add_zero_right d h4]

theorem K.add_zero_norm (x : K) (hx : x.Normalized) : x + 0 = x := by
  obtain ⟨a, b, c, d⟩ := x
  obtain ⟨h1, h2, h3, h4⟩ := hx
  show K.add ⟨a, b, c, d⟩ ⟨0, 0, 0, 0⟩ = _
  simp only [K.add]
  rw [Dy.add_zero_right a h1, Dy.add_zero_right b h2, Dy.add_zero_right c h3,
    Dy.add_zero_right d h4]

/-- `contract` on a single fragment with no cut endpoints: the closure is the
identity on the (normal-form) scalar. -/
theorem contract_single_id (x : K) (hx : K.Normalized x) :
    contract [[x]] [1] ⟨1, []⟩ [[]] [[]] = Except.ok x := by
  have h1 : contract [[x]] [1] ⟨1, []⟩ [[]] [[]]
      = Except.ok ((1 : K) * ((1 : K) * x) + 0) := rfl
  have h2 : (1 : K) * x = x := K.one_mul_norm x hx
  rw [h1, h2, h2, K.add_zero_norm x hx]

/-! ## Structural lemmas on the graph construction (towards C2) -/

theorem alistGetD_set {α : Type} (l : List (ℕ × α)) (k x : ℕ) (v d : α) :
    alistGetD (alistSet l k v) x d = if k = x then v else alistGetD l x d := by
  induction l with
  | nil => rfl
  | cons kv l ih =>
    obtain ⟨k1, v1⟩ := kv
    rw [alistSet]
    by_cases hk : k1 = k
    · rw [if_pos hk]
      subst hk
      by_cases hx : k1 = x
      · simp [alistGetD, hx]
      · simp [alistGetD, hx]
    · rw [if_neg hk]
      by_cases hx : k1 = x
      · have hkx : ¬ k = x := fun hc => hk (hx ▸ hc.symm ▸ rfl)
        simp [alistGetD, hx, hkx]
      · simp [alistGetD, hx, ih]

theorem addOpWires_latest (P : Node → Prop) (op : Node) (hop : P op) :
    ∀ (ws : List ℕ) (latest : WMap) (es : List GEdge),
      (∀ w v, alistGetD latest w none = some v → P v) →
      ∀ w v, alistGetD (addOpWires op ws latest es).1 w none = some v → P v := by
  intro ws
  induction ws with
  | nil => intro latest es h w v hv; exact h w v hv
  | cons w0 ws ih =>
    intro latest es h w v hv
    rw [addOpWires] at hv
    refine ih _ _ ?_ w v hv
    intro w' v' hv'
    rw [alistGetD_set] at hv'
    by_cases hw : w0 = w'
    · rw [if_pos hw] at hv'
      rw [← Option.some.inj hv']
      exact hop
    · rw [if_neg hw] at hv'
      exact h w' v' hv'

theorem addOpWires_edges (S : Node → Prop) (op : Node) (hop : S op) :
    ∀ (ws : List ℕ) (latest : WMap) (es : List GEdge),
      (∀ w v, alistGetD latest w none = some v → S v) →
      (∀ e ∈ es, S e.src ∧ S e.dst) →
      ∀ e ∈ (addOpWires op ws latest es).2, S e.src ∧ S e.dst := by
  intro ws
  induction ws with
  | nil => intro latest es _ hes e he; exact hes e he
  | cons w0 ws ih =>
    intro latest es h hes e he
    rw [addOpWires] at he
    refine ih _ _ ?_ ?_ e he
    · intro w' v' hv'
      rw [alistGetD_set] at hv'
      by_cases hw : w0 = w'
      · rw [if_pos hw] at hv'
        rw [← Option.some.inj hv']
        exact hop
      · rw [if_neg hw] at hv'
        exact h w' v' hv'
    · intro e' he'
      cases hprev : alistGetD latest w0 none with
      | none =>
        rw [hprev] at he'
        exact hes e' he'
      | some parent =>
        rw [hprev] at he'
        rcases List.mem_append.mp he' with h1 | h1
        · exact hes e' h1
        · rw [List.mem_singleton.mp h1]
          exact ⟨h w0 parent hprev, hop⟩

theorem addOpWires_latest_some (op : Node) :
    ∀ (ws : List ℕ) (latest : WMap) (es : List GEdge) (w : ℕ),
      (w ∈ ws ∨ alistGetD latest w none ≠ none) →
      alistGetD (addOpWires op ws latest es).1 w none ≠ none := by
  intro ws
  induction ws with
  | nil =>
    intro latest es w h
    rcases h with h | h
    · simp at h
    · exact h
  | cons w0 ws ih =>
    intro latest es w h
    rw [addOpWires]
    refine ih _ _ w ?_
    by_cases hw : w ∈ ws
    · exact Or.inl hw
    · refine Or.inr ?_
      rw [alistGetD_set]
      by_cases h0 : w0 = w
      · rw [if_pos h0]
        exact fun hc => Option.noConfusion hc
      · rw [if_neg h0]
        rcases h with h | h
        · rcases List.mem_cons.mp h with h1 | h1
          · exact absurd h1.symm h0
          · exact absurd h1 hw
        · exact h

theorem addOps_nodes_fst : ∀ (ops : List Node) (k : ℕ) (latest : WMap),
    ((addOps ops k latest).1).map Prod.fst = ops := by
  intro ops
  induction ops with
  | nil => intro k latest; rfl
  | cons op rest ih =>
    intro k latest
    rw [addOps]
    simp [ih]

theorem addOps_orders : ∀ (ops : List Node) (k : ℕ) (latest : WMap),
    ∀ nd ∈ (addOps ops k latest).1, ∃ j, j < ops.length ∧ nd.2 = Dy.ofInt (k + j) := by
  intro ops
  induction ops with
  | nil => intro k latest nd h; simp [addOps] at h
  | cons op rest ih =>
    intro k latest nd h
    rw [addOps] at h
    rcases List.mem_cons.mp h with h1 | h1
    · exact ⟨0, by simp, by simp [h1]⟩
    · obtain ⟨j, hj, hord⟩ := ih (k + 1) _ nd h1
      exact ⟨j + 1, by simpa using hj, by rw [hord]; congr 1; omega⟩

theorem dyLe_ofInt (m n : ℤ) (h : m ≤ n) : Dy.Le (Dy.ofInt m) (Dy.ofInt n) := by
  simpa [Dy.Le, Dy.ofInt] using h

theorem addOps_sorted : ∀ (ops : List Node) (k : ℕ) (latest : WMap),
    List.Sorted (fun a b => Dy.Le a.2 b.2) (addOps ops k latest).1 := by
  intro ops
  induction ops with
  | nil => intro k latest; exact List.sorted_nil
  | cons op rest ih =>
    intro k latest
    rw [addOps]
    rw [List.sorted_cons]
    constructor
    · intro nd hnd
      obtain ⟨j, _, hord⟩ := addOps_orders rest (k + 1) _ nd hnd
      rw [hord]
      exact dyLe_ofInt _ _ (by omega)
    · exact ih (k + 1) _

theorem addOps_latest (S : Node → Prop) : ∀ (ops : List Node) (k : ℕ) (latest : WMap),
    (∀ w v, alistGetD latest w none = some v → S v) → (∀ op ∈ ops, S op) →
    ∀ w v, alistGetD (addOps ops k latest).2.2 w none = some v → S v := by
  intro ops
  induction ops with
  | nil => intro k latest h _ w v hv; exact h w v hv
  | cons op rest ih =>
    intro k latest h hops w v hv
    rw [addOps] at hv
    exact ih (k + 1) _
      (addOpWires_latest S op (hops op (List.mem_cons_self op rest)) op.wires latest [] h)
      (fun x hx => hops x (List.mem_cons_of_mem op hx)) w v hv

theorem addOps_edges (S : Node → Prop) : ∀ (ops : List Node) (k : ℕ) (latest : WMap),
    (∀ w v, alistGetD latest w none = some v → S v) → (∀ op ∈ ops, S op) →
    ∀ e ∈ (addOps ops k latest).2.1, S e.src ∧ S e.dst := by
  intro ops
  induction ops with
  | nil => intro k latest _ _ e he; simp [addOps] at he
  | cons op rest ih =>
    intro k latest h hops e he
    rw [addOps] at he
    rcases List.mem_append.mp he with h1 | h1
    · exact addOpWires_edges S op (hops op (List.mem_cons_self op rest)) op.wires latest [] h
        (by intro e' he'; simp at he') e h1
    · exact ih (k + 1) _
        (addOpWires_latest S op (hops op (List.mem_cons_self op rest)) op.wires latest [] h)
        (fun x hx => hops x (List.mem_cons_of_mem op hx)) e h1

theorem addOps_latest_some : ∀ (ops : List Node) (k : ℕ) (latest : WMap) (w : ℕ),
    ((∃ op ∈ ops, w ∈ op.wires) ∨ alistGetD latest w none ≠ none) →
    alistGetD (addOps ops k latest).2.2 w none ≠ none := by
  intro ops
  induction ops with
  | nil =>
    intro k latest w h
    rcases h with h | h
    · simp at h
    · exact h
  | cons op rest ih =>
    intro k latest w h
    rw [addOps]
    refine ih (k + 1) _ w ?_
    rcases h with ⟨op', hop', hw⟩ | h
    · rcases List.mem_cons.mp hop' with h1 | h1
      · refine Or.inr (addOpWires_latest_some op op.wires latest [] w (Or.inl ?_))
        rw [h1] at hw
        exact hw
      · exact Or.inl ⟨op', h1, hw⟩
    · exact Or.inr (addOpWires_latest_some op op.wires latest [] w (Or.inr h))

/-! ## C2: the no-cut round trip -/

theorem plain_kind_facts (k : NodeKind) (h : k.isPlainGate = true) :
    k.isMeasureNode = false ∧ k.isMeasProc = false ∧ k.isPrepareNode = false
      ∧ k.isWireCut = false := by
  cases k <;> simp_all [NodeKind.isPlainGate, NodeKind.isMeasureNode, NodeKind.isMeasProc,
    NodeKind.isPrepareNode, NodeKind.isWireCut]

theorem lower_plain (nds : List Node) :
    ∀ st : LowerState, (∀ nd ∈ nds, nd.kind.isPlainGate = true) →
      (∀ kv ∈ st.wireMap, kv.2 = kv.1) →
      nds.foldl lowerStep st = ⟨st.wireMap, st.wires, st.ops ++ nds, st.meas, st.updated ++ nds⟩ := by
  induction nds with
  | nil => intro st _ _; simp
  | cons nd nds ih =>
    intro st hA hB
    have hk := plain_kind_facts nd.kind (hA nd (List.mem_cons_self nd nds))
    rw [List.foldl_cons, lowerStep_no_measure st nd hk.1 hB]
    simp only [hk.2.1, Bool.false_eq_true, if_false]
    rw [ih ⟨st.wireMap, st.wires, st.ops ++ [nd], st.meas, st.updated ++ [nd]⟩
      (fun x hx => hA x (List.mem_cons_of_mem nd hx)) hB]
    simp

theorem configOpsStep_plain (pm : List (ℕ × List SQGate)) (acc : List Node × List Node)
    (op : Node) (h : op.kind.isPlainGate = true) :
    configOpsStep pm acc op = (acc.1 ++ [op], acc.2) := by
  cases hk : op.kind <;> rw [configOpsStep] <;> rw [hk] <;> first
  | rfl
  | (rw [hk] at h; simp [NodeKind.isPlainGate] at h)

theorem configOps_plain (ops : List Node) (pm : List (ℕ × List SQGate)) :
    ∀ acc : List Node × List Node, (∀ op ∈ ops, op.kind.isPlainGate = true) →
      ops.foldl (configOpsStep pm) acc = (acc.1 ++ ops, acc.2) := by
  induction ops with
  | nil => intro acc _; simp
  | cons op ops ih =>
    intro acc h
    rw [List.foldl_cons, configOpsStep_plain pm acc op (h op (List.mem_cons_self op ops))]
    rw [ih _ (fun x hx => h x (List.mem_cons_of_mem op hx))]
    simp

theorem alistGetD_init_none : ∀ (ws : List ℕ) (w : ℕ),
    alistGetD (ws.map (fun w => ((w, none) : ℕ × Option Node))) w none = none := by
  intro ws
  induction ws with
  | nil => intro w; rfl
  | cons w0 ws ih =>
    intro w
    rw [List.map_cons, alistGetD]
    by_cases h : w0 = w
    · rw [if_pos h]
    · rw [if_neg h]
      exact ih w

/-- Return type and observable factors of a measurement node. -/
def measSummary (m : Node) : RetType × List (PFactor × ℕ) :=
  match m.kind with
  | NodeKind.measProc r o => (r, o.factors)
  | _ => (RetType.sample, [])

/-- A "user tape" without cuts: non-empty plain-gate operations, and exactly
one expectation measurement of a single Pauli on a wire some operation
touches. -/
def userNoCutTape (t : Tape) : Bool :=
  (decide (t.ops ≠ [])) &&
  t.ops.all (fun op => op.kind.isPlainGate) &&
  (match t.meas with
   | [m] =>
     (match m.kind with
      | NodeKind.measProc RetType.expectation (Obs.single p w) =>
        singleFactorOk p && decide (m.wires = [w]) && t.ops.any (fun op => decide (w ∈ op.wires))
      | _ => false)
   | _ => false)

/-- Weak connectivity of the built circuit graph, expressed through the
component algorithm itself: one component, covering every node. -/
def connectedGraph (g : Graph) : Bool :=
  decide ((weaklyConnectedComponents g).length = 1) &&
  g.nodes.all (fun nd => decide (nd.1.id ∈ (weaklyConnectedComponents g).flatten))

def pipelineConnected (t : Tape) : Bool :=
  match tape_to_graph t (freshBase t) with
  | Except.ok (g, _) => connectedGraph g
  | Except.error _ => false

theorem except_bind_ok {ε α β : Type} (a : α) (f : α → Except ε β) :
    Except.bind (Except.ok a) f = f a := rfl

theorem addMeasurements_single (M : Node) (r : RetType) (p : PFactor) (w : ℕ)
    (hk : M.kind = NodeKind.measProc r (Obs.single p w)) (hw : M.wires = [w])
    (order fresh : ℕ) (latest : WMap) (parent : Node)
    (hpar : alistGetD latest w none = some parent) :
    addMeasurements [M] order fresh latest =
      Except.ok ([(M, Dy.ofInt order)], [⟨parent, M, w⟩], fresh) := by
  obtain ⟨mid, mk, mw⟩ := M
  have hk' : mk = NodeKind.measProc r (Obs.single p w) := hk
  have hw' : mw = [w] := hw
  subst hk'
  subst hw'
  have h1 : addMeasEdges ⟨mid, NodeKind.measProc r (Obs.single p w), [w]⟩ [w] latest
      = Except.ok [⟨parent, ⟨mid, NodeKind.measProc r (Obs.single p w), [w]⟩, w⟩] := by
    rw [addMeasEdges, hpar]
    rfl
  have h2 : addMeasurements [(⟨mid, NodeKind.measProc r (Obs.single p w), [w]⟩ : Node)]
        order fresh latest
      = Except.bind
          (addMeasEdges ⟨mid, NodeKind.measProc r (Obs.single p w), [w]⟩ [w] latest)
          (fun es => Except.ok
            ([(⟨mid, NodeKind.measProc r (Obs.single p w), [w]⟩, Dy.ofInt order)],
             es ++ [], fresh)) := rfl
  rw [h2, h1]
  rfl

theorem tape_to_graph_plain_single (tops : List Node) (M : Node) (r : RetType) (p : PFactor)
    (w fresh : ℕ) (parent : Node) (init : WMap)
    (hinit : init = (Tape.wiresList ⟨tops, [M]⟩).map (fun x => (x, none)))
    (hk : M.kind = NodeKind.measProc r (Obs.single p w)) (hw : M.wires = [w])
    (hne : tops ≠ [])
    (hpar : alistGetD (addOps tops 0 init).2.2 w none = some parent) :
    tape_to_graph ⟨tops, [M]⟩ fresh =
      Except.ok (⟨(addOps tops 0 init).1 ++ [(M, Dy.ofInt tops.length)],
        (addOps tops 0 init).2.1 ++ [⟨parent, M, w⟩]⟩, fresh) := by
  subst hinit
  have hie : tops.isEmpty = false := by
    cases tops with
    | nil => exact absurd rfl hne
    | cons a l => rfl
  have h0 : tape_to_graph ⟨tops, [M]⟩ fresh =
      (if tops.isEmpty then Except.error "NameError: name order is not defined"
       else Except.bind
         (addMeasurements [M] tops.length fresh
           (addOps tops 0 ((Tape.wiresList ⟨tops, [M]⟩).map (fun x => (x, none)))).2.2)
         (fun x => Except.ok
           (⟨(addOps tops 0 ((Tape.wiresList ⟨tops, [M]⟩).map (fun x => (x, none)))).1 ++ x.1,
             (addOps tops 0 ((Tape.wiresList ⟨tops, [M]⟩).map (fun x => (x, none)))).2.1
               ++ x.2.1⟩, x.2.2))) := rfl
  rw [h0, hie, if_neg Bool.false_ne_true]
  rw [addMeasurements_single M r p w hk hw tops.length fresh _ parent hpar]
  rfl

theorem graph_to_tape_plain_then_meas (nds : List (Node × Dy)) (M : Node) (d : Dy)
    (eds : List GEdge)
    (hs : List.Sorted (fun a b => Dy.Le a.2 b.2) (nds ++ [(M, d)]))
    (hplain : ∀ nd ∈ nds, (nd : Node × Dy).1.kind.isPlainGate = true)
    (hMp : M.kind.isMeasProc = true) (hMm : M.kind.isMeasureNode = false) :
    graph_to_tape ⟨nds ++ [(M, d)], eds⟩
      = (⟨nds.map Prod.fst, [M]⟩, nds.map Prod.fst ++ [M]) := by
  have hB : ∀ kv ∈ (dedupFirst (((nds ++ [(M, d)]).map (fun nd => nd.1.wires)).flatten)).map
      (fun w => (w, w)), (kv : ℕ × ℕ).2 = kv.1 := by
    intro kv hkv
    obtain ⟨x, _, hx⟩ := List.mem_map.mp hkv
    rw [← hx]
  have hord := List.Sorted.insertionSort_eq hs
  have h1 : (nds.map Prod.fst).foldl lowerStep
      ⟨(dedupFirst (((nds ++ [(M, d)]).map (fun nd => nd.1.wires)).flatten)).map (fun w => (w, w)),
       dedupFirst (((nds ++ [(M, d)]).map (fun nd => nd.1.wires)).flatten), [], [], []⟩
      = ⟨(dedupFirst (((nds ++ [(M, d)]).map (fun nd => nd.1.wires)).flatten)).map (fun w => (w, w)),
         dedupFirst (((nds ++ [(M, d)]).map (fun nd => nd.1.wires)).flatten),
         nds.map Prod.fst, [], nds.map Prod.fst⟩ := by
    rw [lower_plain (nds.map Prod.fst)
      ⟨(dedupFirst (((nds ++ [(M, d)]).map (fun nd => nd.1.wires)).flatten)).map (fun w => (w, w)),
       dedupFirst (((nds ++ [(M, d)]).map (fun nd => nd.1.wires)).flatten), [], [], []⟩
      (by intro x hx; obtain ⟨q, hq, hqx⟩ := List.mem_map.mp hx; rw [← hqx]; exact hplain q hq)
      hB]
    rfl
  have h2 : lowerStep
      ⟨(dedupFirst (((nds ++ [(M, d)]).map (fun nd => nd.1.wires)).flatten)).map (fun w => (w, w)),
       dedupFirst (((nds ++ [(M, d)]).map (fun nd => nd.1.wires)).flatten),
       nds.map Prod.fst, [], nds.map Prod.fst⟩ M
      = ⟨(dedupFirst (((nds ++ [(M, d)]).map (fun nd => nd.1.wires)).flatten)).map (fun w => (w, w)),
         dedupFirst (((nds ++ [(M, d)]).map (fun nd => nd.1.wires)).flatten),
         nds.map Prod.fst, [M], nds.map Prod.fst ++ [M]⟩ := by
    rw [lowerStep_no_measure _ M hMm hB]
    simp [hMp]
  calc graph_to_tape ⟨nds ++ [(M, d)], eds⟩
      = ((fun st => ((⟨st.ops, st.meas⟩ : Tape), st.updated))
          (((List.insertionSort (fun a b => Dy.Le a.2 b.2) (nds ++ [(M, d)])).map Prod.fst).foldl
            lowerStep
            ⟨(dedupFirst (((nds ++ [(M, d)]).map
                (fun nd => nd.1.wires)).flatten)).map (fun w => (w, w)),
             dedupFirst (((nds ++ [(M, d)]).map (fun nd => nd.1.wires)).flatten),
             [], [], []⟩)) := rfl
    _ = (⟨nds.map Prod.fst, [M]⟩, nds.map Prod.fst ++ [M]) := by
        rw [hord]
        rw [show List.map Prod.fst (nds ++ [(M, d)]) = List.map Prod.fst nds ++ [M] by simp]
        rw [List.foldl_append, h1, List.foldl_cons, List.foldl_nil, h2]

theorem fragment_graph_connected (gN : List (Node × Dy)) (gE : List GEdge)
    (hsrc : ∀ e ∈ gE, (e : GEdge).src.kind.isMeasureNode = false)
    (hends : ∀ e ∈ gE, (∃ nd ∈ gN, (nd : Node × Dy).1.id = (e : GEdge).src.id)
        ∧ (∃ nd ∈ gN, (nd : Node × Dy).1.id = (e : GEdge).dst.id))
    (hconn : connectedGraph ⟨gN, gE⟩ = true) :
    fragment_graph ⟨gN, gE⟩ = Except.ok ([⟨gN, gE⟩], ⟨1, []⟩) := by
  have hcut : gE.filter (fun e => e.src.kind.isMeasureNode) = [] :=
    List.filter_eq_nil_iff.mpr (fun e he => by simp [hsrc e he])
  have hres : gE.filter (fun e => ¬ e.src.kind.isMeasureNode) = gE :=
    List.filter_eq_self.mpr (fun e he => by simp [hsrc e he])
  rw [connectedGraph, Bool.and_eq_true] at hconn
  obtain ⟨hlen, hcover⟩ := hconn
  obtain ⟨c, hc⟩ := List.length_eq_one.mp (of_decide_eq_true hlen)
  have hcover' : ∀ nd ∈ gN, (nd : Node × Dy).1.id ∈ c := by
    intro nd hnd
    have h1 := of_decide_eq_true (List.all_eq_true.mp hcover nd hnd)
    rw [hc] at h1
    simpa using h1
  have hsub : Graph.subgraph ⟨gN, gE⟩ c = ⟨gN, gE⟩ := by
    rw [Graph.subgraph]
    have h1 : gN.filter (fun nd => nd.1.id ∈ c) = gN :=
      List.filter_eq_self.mpr (fun nd hnd => by simp [hcover' nd hnd])
    have h2 : gE.filter (fun e => e.src.id ∈ c ∧ e.dst.id ∈ c) = gE := by
      refine List.filter_eq_self.mpr (fun e he => ?_)
      obtain ⟨⟨n1, hn1, hid1⟩, ⟨n2, hn2, hid2⟩⟩ := hends e he
      have hsv := hcover' n1 hn1
      have hdv := hcover' n2 hn2
      rw [hid1] at hsv
      rw [hid2] at hdv
      simp [hsv, hdv]
    rw [h1, h2]
  rw [fragment_graph]
  simp only [hcut, hres, hc, List.any_nil, Bool.false_eq_true, if_false, List.map_cons,
    List.map_nil, hsub, List.length_cons, List.length_nil]

/-- Amended C2: for a connected user tape without cuts — non-empty plain-gate
operations and one supported single-Pauli expectation measurement on a covered
wire — `cut_circuit` yields exactly one configuration tape with the same
operations and the same measurement (as a summary of return type and
observable factors), and the `contract` closure is the identity on the single
(normal-form) scalar. -/
theorem claim_C2_no_cut_roundtrip (t : Tape)
    (h1 : userNoCutTape t = true) (h2 : pipelineConnected t = true) :
    ∃ tp pd, cut_circuit t = Except.ok ([tp], pd)
      ∧ tp.ops = t.ops
      ∧ tp.meas.map measSummary = t.meas.map measSummary
      ∧ ∀ x : K, K.Normalized x →
          contract [[x]] pd.shapes pd.communication_graph pd.prepare_nodes pd.measure_nodes
            = Except.ok x := by
  classical
  obtain ⟨tops, tmeas⟩ := t
  rw [userNoCutTape, Bool.and_eq_true, Bool.and_eq_true] at h1
  obtain ⟨⟨hne0, hall0⟩, hm0⟩ := h1
  have hne : tops ≠ [] := by simpa using of_decide_eq_true hne0
  have hall : ∀ op ∈ tops, op.kind.isPlainGate = true := by
    intro op hop
    exact List.all_eq_true.mp hall0 op hop
  cases tmeas with
  | nil => simp at hm0
  | cons m ms =>
    cases ms with
    | cons m2 ms2 => simp at hm0
    | nil =>
      obtain ⟨mid, mkind, mwires⟩ := m
      cases mkind with
      | measProc r obs =>
        cases r with
        | expectation =>
          cases obs with
          | single p w =>
            simp only at hm0
            rw [Bool.and_eq_true, Bool.and_eq_true] at hm0
            obtain ⟨⟨hp, hwires⟩, hany⟩ := hm0
            have hp' : singleFactorOk p = true := hp
            have hmw : mwires = [w] := of_decide_eq_true hwires
            subst hmw
            obtain ⟨op0, hop0m, hw0⟩ := List.any_eq_true.mp hany
            have hcov : ∃ op ∈ tops, w ∈ op.wires := ⟨op0, hop0m, of_decide_eq_true hw0⟩
            clear hne0 hall0 hwires hany hop0m hw0 hp
            set M : Node := ⟨mid, NodeKind.measProc RetType.expectation (Obs.single p w), [w]⟩
              with hMdef
            set I : WMap := (Tape.wiresList ⟨tops, [M]⟩).map (fun x => (x, none)) with hIdef
            have hinit0 : ∀ w' (v : Node), alistGetD I w' none = some v → v ∈ tops := by
              intro w' v hv
              rw [hIdef, alistGetD_init_none] at hv
              exact absurd hv (by simp)
            have hlat : ∀ w' v, alistGetD (addOps tops 0 I).2.2 w' none = some v → v ∈ tops :=
              addOps_latest (fun nd => nd ∈ tops) tops 0 I hinit0 (fun op h => h)
            have hsome : alistGetD (addOps tops 0 I).2.2 w none ≠ none :=
              addOps_latest_some tops 0 I w (Or.inl hcov)
            obtain ⟨parent, hpar⟩ :
                ∃ parent, alistGetD (addOps tops 0 I).2.2 w none = some parent := by
              cases hq : alistGetD (addOps tops 0 I).2.2 w none with
              | none => exact absurd hq hsome
              | some v => exact ⟨v, rfl⟩
            have hparent : parent ∈ tops := hlat w parent hpar
            have hA0 := tape_to_graph_plain_single tops M RetType.expectation p w
              (freshBase ⟨tops, [M]⟩) parent I hIdef rfl rfl hne hpar
            obtain ⟨ns, es, latest, hADD⟩ :
                ∃ a b c, addOps tops 0 I = (a, b, c) := ⟨_, _, _, rfl⟩
            rw [hADD] at hA0
            have hnodes : ns.map Prod.fst = tops := by
              have h3 := addOps_nodes_fst tops 0 I
              rw [hADD] at h3
              exact h3
            have hsortedns : List.Sorted (fun a b => Dy.Le a.2 b.2) ns := by
              have h3 := addOps_sorted tops 0 I
              rw [hADD] at h3
              exact h3
            have horders : ∀ nd ∈ ns, ∃ j, j < tops.length ∧ nd.2 = Dy.ofInt (0 + j) := by
              have h3 := addOps_orders tops 0 I
              rw [hADD] at h3
              exact h3
            have hedges : ∀ e ∈ es, (e : GEdge).src ∈ tops ∧ (e : GEdge).dst ∈ tops := by
              have h3 := addOps_edges (fun nd => nd ∈ tops) tops 0 I hinit0 (fun op h => h)
              rw [hADD] at h3
              exact h3
            set N : List (Node × Dy) := ns ++ [(M, Dy.ofInt tops.length)] with hNdef
            set E : List GEdge := es ++ [⟨parent, M, w⟩] with hEdef
            have hA : tape_to_graph ⟨tops, [M]⟩ (freshBase ⟨tops, [M]⟩)
                = Except.ok (⟨N, E⟩, freshBase ⟨tops, [M]⟩) := hA0
            have hmemtops : ∀ x ∈ tops, ∃ nd ∈ N, (nd : Node × Dy).1 = x := by
              intro x hx
              rw [← hnodes] at hx
              obtain ⟨q, hq, hqx⟩ := List.mem_map.mp hx
              exact ⟨q, by rw [hNdef]; exact List.mem_append_left _ hq, hqx⟩
            have hplainN : ∀ nd ∈ ns, (nd : Node × Dy).1.kind.isPlainGate = true := by
              intro nd hnd
              have : (nd : Node × Dy).1 ∈ tops := by
                rw [← hnodes]
                exact List.mem_map_of_mem Prod.fst hnd
              exact hall _ this
            have hconn : connectedGraph ⟨N, E⟩ = true := by
              rw [pipelineConnected] at h2
              rw [hA] at h2
              exact h2
            have hwc : N.filter (fun nd => nd.1.kind.isWireCut) = [] := by
              refine List.filter_eq_nil_iff.mpr (fun nd hnd => ?_)
              rw [hNdef] at hnd
              rcases List.mem_append.mp hnd with h3 | h3
              · simp [(plain_kind_facts _ (hplainN nd h3)).2.2.2]
              · rw [List.mem_singleton.mp h3]
                simp [NodeKind.isWireCut]
            have hB : remove_wire_cut_nodes ⟨N, E⟩ (freshBase ⟨tops, [M]⟩)
                = (⟨N, E⟩, freshBase ⟨tops, [M]⟩) := by
              have h0 : remove_wire_cut_nodes ⟨N, E⟩ (freshBase ⟨tops, [M]⟩) =
                  ((N.filter (fun nd => nd.1.kind.isWireCut)).map Prod.fst).foldl
                    (fun acc wc => remove_wire_cut_node wc acc.1 acc.2)
                    (⟨N, E⟩, freshBase ⟨tops, [M]⟩) := rfl
              rw [h0, hwc]
              rfl
            have hsrcE : ∀ e ∈ E, (e : GEdge).src.kind.isMeasureNode = false := by
              intro e he
              rw [hEdef] at he
              rcases List.mem_append.mp he with h3 | h3
              · exact (plain_kind_facts _ (hall _ (hedges e h3).1)).1
              · rw [List.mem_singleton.mp h3]
                exact (plain_kind_facts _ (hall _ hparent)).1
            have hendsE : ∀ e ∈ E, (∃ nd ∈ N, (nd : Node × Dy).1.id = (e : GEdge).src.id)
                ∧ (∃ nd ∈ N, (nd : Node × Dy).1.id = (e : GEdge).dst.id) := by
              intro e he
              rw [hEdef] at he
              rcases List.mem_append.mp he with h3 | h3
              · obtain ⟨hs3, hd3⟩ := hedges e h3
                obtain ⟨n1, hn1, hn1x⟩ := hmemtops _ hs3
                obtain ⟨n2, hn2, hn2x⟩ := hmemtops _ hd3
                exact ⟨⟨n1, hn1, by rw [hn1x]⟩, ⟨n2, hn2, by rw [hn2x]⟩⟩
              · rw [List.mem_singleton.mp h3]
                refine ⟨?_, ?_⟩
                · obtain ⟨n1, hn1, hn1x⟩ := hmemtops parent hparent
                  exact ⟨n1, hn1, by rw [hn1x]⟩
                · refine ⟨(M, Dy.ofInt tops.length), ?_, rfl⟩
                  rw [hNdef]
                  exact List.mem_append_right _ (List.mem_singleton.mpr rfl)
            have hC : fragment_graph ⟨N, E⟩ = Except.ok ([⟨N, E⟩], ⟨1, []⟩) :=
              fragment_graph_connected N E hsrcE hendsE hconn
            have hsorted : List.Sorted (fun a b => Dy.Le a.2 b.2)
                (ns ++ [(M, Dy.ofInt tops.length)]) := by
              refine List.pairwise_append.mpr ⟨hsortedns, List.pairwise_singleton _ _, ?_⟩
              intro a ha b hb
              rw [List.mem_singleton.mp hb]
              obtain ⟨j, hj, hord⟩ := horders a ha
              rw [hord]
              exact dyLe_ofInt _ _ (by omega)
            have hE2 := graph_to_tape_plain_then_meas ns M (Dy.ofInt tops.length) E
              hsorted hplainN rfl rfl
            rw [← hNdef, hnodes] at hE2
            have hprep : tops.filter (fun o => o.kind.isPrepareNode) = [] :=
              List.filter_eq_nil_iff.mpr (fun op hop => by
                simp [(plain_kind_facts _ (hall op hop)).2.2.1])
            have hmeasn : tops.filter (fun o => o.kind.isMeasureNode) = [] :=
              List.filter_eq_nil_iff.mpr (fun op hop => by
                simp [(plain_kind_facts _ (hall op hop)).1])
            have hacc : tops.foldl (configOpsStep []) ([], []) = (tops, []) := by
              rw [configOps_plain tops [] ([], []) hall]
              rfl
            have hrm : rewriteMeasurement [] M
                = Except.ok ⟨0, NodeKind.measProc RetType.expectation (Obs.tensor [(p, w)]),
                    [w]⟩ := by
              have h0 : rewriteMeasurement [] M =
                  (if ¬ singleFactorOk p = true
                   then Except.error "Only tensor products of Paulis for now"
                   else Except.ok (mergedMeasurement [] [(p, w)])) := rfl
              rw [h0, if_neg (by simp [hp'])]
              rfl
            have hbc : buildConfig ⟨tops, [M]⟩ [] [] [] []
                = Except.ok ⟨tops, [⟨0, NodeKind.measProc RetType.expectation
                    (Obs.tensor [(p, w)]), [w]⟩]⟩ := by
              have h0 : buildConfig ⟨tops, [M]⟩ [] [] [] [] =
                  Except.bind (exceptMapM (rewriteMeasurement
                      ((tops.foldl (configOpsStep []) ([], [])).2.map
                        (fun op => (alistGetD [] op.id PFactor.fI, op.wires.headD 0)))) [M])
                    (fun newMeas =>
                      Except.ok ⟨(tops.foldl (configOpsStep []) ([], [])).1, newMeas⟩) := rfl
              rw [h0, hacc]
              have h1 : exceptMapM (rewriteMeasurement
                    ((((tops, []) : List Node × List Node)).2.map
                      (fun op => (alistGetD [] op.id PFactor.fI, op.wires.headD 0)))) [M]
                  = Except.bind (rewriteMeasurement [] M) (fun b => Except.ok [b]) := rfl
              rw [h1, hrm]
              rfl
            have hF : expand_fragment_tapes ⟨tops, [M]⟩
                = Except.ok ([⟨tops, [⟨0, NodeKind.measProc RetType.expectation
                    (Obs.tensor [(p, w)]), [w]⟩]⟩], [], []) := by
              have h0 : expand_fragment_tapes ⟨tops, [M]⟩ =
                  Except.bind (exceptMapM (fun c =>
                      buildConfig ⟨tops, [M]⟩ (tops.filter (fun o => o.kind.isPrepareNode))
                        (tops.filter (fun o => o.kind.isMeasureNode)) c.1 c.2)
                    ((listProd ((tops.filter (fun o => o.kind.isPrepareNode)).map
                        Node.prepTerms)).flatMap
                      (fun ps => (listProd ((tops.filter (fun o => o.kind.isMeasureNode)).map
                          Node.measTerms)).map (fun ms => (ps, ms)))))
                    (fun tapes => Except.ok (tapes,
                      tops.filter (fun o => o.kind.isPrepareNode),
                      tops.filter (fun o => o.kind.isMeasureNode))) := rfl
              rw [h0, hprep, hmeasn]
              have h1 : exceptMapM (fun c : List (List SQGate) × List PFactor =>
                    buildConfig ⟨tops, [M]⟩ [] [] c.1 c.2)
                  ((listProd (([] : List Node).map Node.prepTerms)).flatMap
                    (fun ps => (listProd (([] : List Node).map Node.measTerms)).map
                      (fun ms => (ps, ms))))
                  = Except.bind (buildConfig ⟨tops, [M]⟩ [] [] [] [])
                      (fun b => Except.ok [b]) := rfl
              rw [h1, hbc]
              rfl
            refine ⟨⟨tops, [⟨0, NodeKind.measProc RetType.expectation
                (Obs.tensor [(p, w)]), [w]⟩]⟩, ⟨[1], ⟨1, []⟩, [[]], [[]]⟩, ?_, rfl, rfl, ?_⟩
            · have h0 : cut_circuit ⟨tops, [M]⟩ =
                  Except.bind (tape_to_graph ⟨tops, [M]⟩ (freshBase ⟨tops, [M]⟩))
                    (fun gf => Except.bind
                      (fragment_graph (remove_wire_cut_nodes gf.1 gf.2).1)
                      (fun fc => Except.bind (exceptMapM expand_fragment_tapes
                          (fc.1.map (fun f => (graph_to_tape f).1)))
                        (fun expanded => Except.ok ((expanded.map (fun e => e.1)).flatten,
                          ⟨(expanded.map (fun e => e.1)).map List.length, fc.2,
                           expanded.map (fun e => e.2.1),
                           expanded.map (fun e => e.2.2)⟩)))) := rfl
              rw [h0, hA, except_bind_ok]
              simp only [hB, hC, except_bind_ok, List.map_cons, List.map_nil, hE2]
              have h1 : exceptMapM expand_fragment_tapes [(⟨tops, [M]⟩ : Tape)]
                  = Except.bind (expand_fragment_tapes ⟨tops, [M]⟩)
                      (fun b => Except.ok [b]) := rfl
              rw [h1, hF]
              rfl
            · intro x hx
              exact contract_single_id x hx
          | tensor fs => simp at hm0
        | sample => simp at hm0
      | gate1 g => simp at hm0
      | cnot => simp at hm0
      | wireCut => simp at hm0
      | measureNode ts => simp at hm0
      | prepareNode ts => simp at hm0

/-- A cut-free but disconnected tape: `X(0); X(1); expval(Z(0))`. -/
def exC2cx : Tape :=
  ⟨[⟨1, NodeKind.gate1 SQGate.gX, [0]⟩, ⟨2, NodeKind.gate1 SQGate.gX, [1]⟩],
   [⟨3, NodeKind.measProc RetType.expectation (Obs.single PFactor.fZ 0), [0]⟩]⟩

/-- A connected cut-free user tape: `H(0); CNOT(0,1); expval(X(0))`. -/
def exC2w : Tape :=
  ⟨[⟨1, NodeKind.gate1 SQGate.gH, [0]⟩, ⟨2, NodeKind.cnot, [0, 1]⟩],
   [⟨3, NodeKind.measProc RetType.expectation (Obs.single PFactor.fX 0), [0]⟩]⟩

/-- Counterexample to C2 as stated: a tape with zero `WireCut` nodes whose
circuit graph is disconnected produces TWO configuration tapes (one per
weakly connected component), not exactly one. -/
theorem claim_C2_counterexample :
    exC2cx.ops.all (fun op => !op.kind.isWireCut) = true
    ∧ (match cut_circuit exC2cx with
       | Except.ok (ts, _) => ts.length
       | Except.error _ => 0) = 2 := by
  refine ⟨by decide, by decide⟩

/-- Witness for the amended C2 on `H(0); CNOT(0,1); expval(X(0))`. -/
theorem claim_C2_witness :
    userNoCutTape exC2w = true ∧ pipelineConnected exC2w = true
    ∧ ∃ tp pd, cut_circuit exC2w = Except.ok ([tp], pd)
      ∧ tp.ops = exC2w.ops
      ∧ tp.meas.map measSummary = exC2w.meas.map measSummary
      ∧ ∀ x : K, K.Normalized x →
          contract [[x]] pd.shapes pd.communication_graph pd.prepare_nodes pd.measure_nodes
            = Except.ok x :=
  ⟨by decide, by decide, claim_C2_no_cut_roundtrip exC2w (by decide) (by decide)⟩
